import Mathlib

/-!
# Listener synthesis, the listener cache and the shutdown manager

A shallow embedding of `internal/contour/listener.go`:

* `ListenerVisitorConfig` and its accessors,
* the visitor `visit` / `visitListeners` that walks the DAG and builds the
  `ingress_http` and `ingress_https` listeners,
* `ListenerCache` with `NewListenerCache`, `Update`, `Contents` and `Query`,

and of the drain handshake of `cmd/contour/shutdownmanager.go`:

* `parseOpenConnections` and `getOpenConnections`,
* the polling loop of `shutdownReadyHandler`, run against the answers of the
  environment (the metrics requests and the timers).

Conventions of the embedding.

* A Go `map[string]T` is an association list `GoMap T`; the order of the list is
  the order in which a `range` loop yields the entries.  A Go map never holds a
  key twice, which is the predicate `GoMap.WF`.
* Pointers to protobuf messages are the messages themselves (never nil), but a
  pointer the code tests against nil, or that the DAG leaves optional, is an
  `Option`.
* Go's `<` on strings compares byte-wise, which on UTF-8 text is the
  lexicographic order of the code points: Lean's `<` on `String`.
* `sort.Stable` / `sort.SliceStable` belong to the Go standard library; they are
  embedded as a stable insertion sort.
-/

namespace Contour

/-! ## Go built-ins -/

/-- Go's `a < b` on strings, as a boolean test (lexicographic on the characters). -/
def stringLess (a b : String) : Bool := decide (a.data < b.data)

/-- The value of Go's `int` (64 bits on the platforms the shutdown manager
runs on) that an arithmetic result wraps around to: the representative of `x`
modulo 2^64 in the range from -2^63 to 2^63 - 1. -/
def goInt (x : Int) : Int :=
  (x + 9223372036854775808) % 18446744073709551616 - 9223372036854775808

/-- A Go `map[string]β`: the entries in the order a `range` loop yields them. -/
abbrev GoMap (β : Type) := List (String × β)

namespace GoMap

variable {β : Type}

/-- The keys of a Go map are pairwise distinct. -/
abbrev WF (m : GoMap β) : Prop := (m.map Prod.fst).Nodup

/-- The Go expression `m[k]` with the comma-ok result: `v, ok := m[k]`. -/
def get? (m : GoMap β) (k : String) : Option β := List.lookup k m

/-- The Go statement `m[k] = v`. -/
def set : GoMap β → String → β → GoMap β
  | [], k, v => [(k, v)]
  | (k', v') :: m, k, v => if k' = k then (k, v) :: m else (k', v') :: set m k v

/-- The Go statement `delete(m, k)`. -/
def delete (m : GoMap β) (k : String) : GoMap β := m.filter (fun kv => kv.1 ≠ k)

/-- An update through the pointer stored under `k`: `m[k].field = ...`.
The map keeps its keys; only the message stored under `k` changes. -/
def modify (m : GoMap β) (k : String) (f : β → β) : GoMap β :=
  m.map (fun kv => if kv.1 = k then (kv.1, f kv.2) else kv)

end GoMap

namespace sort

variable {α : Type}

/-- One insertion of the stable sort: `a` stood before every element of the
sorted list `l` and stays in front of the elements it is not greater than. -/
def insert (less : α → α → Bool) (a : α) : List α → List α
  | [] => [a]
  | b :: l => if less b a then b :: insert less a l else a :: b :: l

/-- Go's `sort.Stable` (and `sort.SliceStable`, the same sort with the
comparison given as a closure): sorts by `less`, keeping the original order of
elements that `less` does not separate. -/
def Stable (less : α → α → Bool) : List α → List α
  | [] => []
  | a :: l => insert less a (Stable less l)

end sort

/-! ## Envoy API messages -/

/-- The protobuf enum `envoy_api_v2_auth.TlsParameters_TlsProtocol` (an int32). -/
abbrev TlsParameters_TlsProtocol := Int

def TlsParameters_TLS_AUTO : TlsParameters_TlsProtocol := 0
def TlsParameters_TLSv1_0 : TlsParameters_TlsProtocol := 1
def TlsParameters_TLSv1_1 : TlsParameters_TlsProtocol := 2
def TlsParameters_TLSv1_2 : TlsParameters_TlsProtocol := 3
def TlsParameters_TLSv1_3 : TlsParameters_TlsProtocol := 4

namespace dag

/-- Modelled from the spec: `dag.Secret` (package internal/dag is not part of
the sources), the TLS secret a TLS-terminated virtual host refers to. -/
structure Secret where
  Name : String
  deriving DecidableEq, Repr

/-- Modelled from the spec: `dag.TCPProxy`, the raw TCP passthrough proxy
target of a TLS-terminated virtual host. -/
structure TCPProxy where
  Clusters : List String
  deriving DecidableEq, Repr

/-- Modelled from the spec: `dag.PeerValidationContext`, the downstream
client-certificate validation policy of a TLS-terminated virtual host. -/
structure PeerValidationContext where
  CACertificate : String
  deriving DecidableEq, Repr

/-- Modelled from the spec: `dag.VirtualHost`, a plaintext virtual host; `visit`
reads only its name. -/
structure VirtualHost where
  Name : String
  deriving DecidableEq, Repr

/-- Modelled from the spec: `dag.SecureVirtualHost`, a TLS-terminated virtual
host: it embeds a `VirtualHost` and carries a reference to a TLS secret, a
per-host minimum TLS protocol version, an optional raw TCP passthrough proxy
target and an optional downstream validation policy. -/
structure SecureVirtualHost where
  VirtualHost : VirtualHost
  Secret : Option Secret
  MinProtoVersion : TlsParameters_TlsProtocol
  TCPProxy : Option TCPProxy
  DownstreamValidation : Option PeerValidationContext
  deriving DecidableEq, Repr

/-- Modelled from the spec: `dag.Vertex`, a node of the finite acyclic graph.
The type switch of `visit` tells three kinds apart: a plaintext virtual host, a
TLS-terminated virtual host, and any other kind.  `children` is the sequence
in which the node's `Visit` method hands its children to the callback. -/
inductive Vertex where
  | virtualHost (vh : VirtualHost) (children : List Vertex)
  | secureVirtualHost (vh : SecureVirtualHost) (children : List Vertex)
  | other (children : List Vertex)

end dag

/-- Modelled from the spec: the field list of a structured (JSON) access log.
`envoy.DefaultFields` is declared in package internal/envoy, which is not part
of the sources, and stays symbolic. -/
inductive AccessLogFields where
  | DefaultFields
  | fields (fs : List String)
  deriving DecidableEq, Repr

/-- Modelled from the spec: the access-log configuration of a pipeline, one
constructor per log-entry construction path. -/
inductive AccessLog where
  | FileAccessLogEnvoy (path : String)
  | FileAccessLogJSON (path : String) (fields : AccessLogFields)
  deriving DecidableEq, Repr

/-- Modelled from the spec: the processing pipeline of a filter chain, either
HTTP connection management or raw TCP proxying. -/
inductive Filter where
  | HTTPConnectionManager (routename : String) (accesslogger : AccessLog) (requestTimeout : Int)
  | TCPProxy (statName : String) (proxy : dag.TCPProxy) (accesslogger : AccessLog)
  deriving DecidableEq, Repr

/-- Modelled from the spec: the listener filters, the proxy-protocol filter and
the TLS-inspection filter. -/
inductive ListenerFilter where
  | ProxyProtocol
  | TLSInspector
  deriving DecidableEq, Repr

/-- Modelled from the spec: the TLS context of a filter chain: certificate
material, minimum protocol version, optional client-certificate validation and
the ALPN protocol offer list. -/
structure DownstreamTlsContext where
  Secret : Option dag.Secret
  TlsMinimumProtocolVersion : TlsParameters_TlsProtocol
  ValidationContext : Option dag.PeerValidationContext
  AlpnProtocols : List String
  deriving DecidableEq, Repr

/-- The message `envoy_api_v2_listener.FilterChainMatch`; only the SNI server
names are used. -/
structure FilterChainMatch where
  ServerNames : List String
  deriving DecidableEq, Repr

/-- The message `envoy_api_v2_listener.FilterChain`. -/
structure FilterChain where
  Filters : List Filter
  FilterChainMatch : Option FilterChainMatch
  TlsContext : Option DownstreamTlsContext
  deriving DecidableEq, Repr

/-- A bound network address and port. -/
structure SocketAddress where
  Address : String
  Port : Int
  deriving DecidableEq, Repr

/-- The message `v2.Listener`. -/
structure Listener where
  Name : String
  Address : SocketAddress
  ListenerFilters : List ListenerFilter
  FilterChains : List FilterChain
  deriving DecidableEq, Repr

namespace envoy

/-- Modelled from the spec: `envoy.FileAccessLogEnvoy` (package internal/envoy
is not part of the sources), the plain log-entry construction path. -/
def FileAccessLogEnvoy (path : String) : AccessLog := .FileAccessLogEnvoy path

/-- Modelled from the spec: `envoy.FileAccessLogJSON`, the structured
log-entry construction path with its field list. -/
def FileAccessLogJSON (path : String) (fields : AccessLogFields) : AccessLog :=
  .FileAccessLogJSON path fields

/-- Modelled from the spec: `envoy.HTTPConnectionManager`, the HTTP processing
pipeline with its access log and request timeout. -/
def HTTPConnectionManager (routename : String) (accesslogger : AccessLog)
    (requestTimeout : Int) : Filter :=
  .HTTPConnectionManager routename accesslogger requestTimeout

/-- Modelled from the spec: `envoy.TCPProxy`, the raw TCP proxying pipeline. -/
def TCPProxy (statName : String) (proxy : dag.TCPProxy) (accesslogger : AccessLog) : Filter :=
  .TCPProxy statName proxy accesslogger

/-- Modelled from the spec: `envoy.Filters`, the filters as a slice. -/
def Filters (filters : List Filter) : List Filter := filters

/-- Modelled from the spec: `envoy.ListenerFilters`, the listener filters as a
slice. -/
def ListenerFilters (lf : List ListenerFilter) : List ListenerFilter := lf

/-- Modelled from the spec: `envoy.ProxyProtocol`, the proxy-protocol listener
filter. -/
def ProxyProtocol : ListenerFilter := .ProxyProtocol

/-- Modelled from the spec: `envoy.TLSInspector`, the TLS-inspection listener
filter. -/
def TLSInspector : ListenerFilter := .TLSInspector

/-- Modelled from the spec: `envoy.DownstreamTLSContext`, the TLS context made
of the certificate material, the minimum protocol version, the optional
client-certificate validation (attached unchanged) and the ALPN offer list. -/
def DownstreamTLSContext (secret : Option dag.Secret)
    (tlsMinProtoVersion : TlsParameters_TlsProtocol)
    (peerValidationContext : Option dag.PeerValidationContext)
    (alpnProtos : List String) : DownstreamTlsContext :=
  { Secret := secret
    TlsMinimumProtocolVersion := tlsMinProtoVersion
    ValidationContext := peerValidationContext
    AlpnProtocols := alpnProtos }

/-- Modelled from the spec: `envoy.FilterChainTLS`, one filter chain scoped to
the host name used as the SNI match, with its TLS context and pipeline. -/
def FilterChainTLS (domain : String) (downstream : DownstreamTlsContext)
    (filters : List Filter) : FilterChain :=
  { Filters := filters
    FilterChainMatch := some { ServerNames := [domain] }
    TlsContext := some downstream }

/-- Modelled from the spec: `envoy.Listener`, a listener with its name, bind
address and port and listener filters; when filters are given they form the
single pipeline (one filter chain without SNI match), otherwise the listener
has no filter chain yet. -/
def Listener (name address : String) (port : Int) (lf : List ListenerFilter)
    (filters : List Filter) : Listener :=
  { Name := name
    Address := { Address := address, Port := port }
    ListenerFilters := lf
    FilterChains :=
      if filters.length > 0 then
        [{ Filters := filters, FilterChainMatch := none, TlsContext := none }]
      else [] }

end envoy

/-! ## listener.go -/

def ENVOY_HTTP_LISTENER : String := "ingress_http"
def ENVOY_HTTPS_LISTENER : String := "ingress_https"
def DEFAULT_HTTP_ACCESS_LOG : String := "/dev/stdout"
def DEFAULT_HTTP_LISTENER_ADDRESS : String := "0.0.0.0"
def DEFAULT_HTTP_LISTENER_PORT : Int := 8080
def DEFAULT_HTTPS_ACCESS_LOG : String := "/dev/stdout"
def DEFAULT_HTTPS_LISTENER_ADDRESS : String := DEFAULT_HTTP_LISTENER_ADDRESS
def DEFAULT_HTTPS_LISTENER_PORT : Int := 8443
def DEFAULT_ACCESS_LOG_TYPE : String := "envoy"

/-- ListenerVisitorConfig holds configuration parameters for visitListeners.
`AccessLogFields` is a slice that may be nil; `RequestTimeout` is a
`time.Duration` (an int64 count of nanoseconds, only compared with 0). -/
structure ListenerVisitorConfig where
  HTTPAddress : String
  HTTPPort : Int
  HTTPAccessLog : String
  HTTPSAddress : String
  HTTPSPort : Int
  HTTPSAccessLog : String
  UseProxyProto : Bool
  MinimumProtocolVersion : TlsParameters_TlsProtocol
  AccessLogType : String
  AccessLogFields : Option (List String)
  RequestTimeout : Int
  deriving DecidableEq, Repr

namespace ListenerVisitorConfig

def httpAddress (lvc : ListenerVisitorConfig) : String :=
  if lvc.HTTPAddress ≠ "" then lvc.HTTPAddress else DEFAULT_HTTP_LISTENER_ADDRESS

def httpPort (lvc : ListenerVisitorConfig) : Int :=
  if lvc.HTTPPort ≠ 0 then lvc.HTTPPort else DEFAULT_HTTP_LISTENER_PORT

def httpAccessLog (lvc : ListenerVisitorConfig) : String :=
  if lvc.HTTPAccessLog ≠ "" then lvc.HTTPAccessLog else DEFAULT_HTTP_ACCESS_LOG

def httpsAddress (lvc : ListenerVisitorConfig) : String :=
  if lvc.HTTPSAddress ≠ "" then lvc.HTTPSAddress else DEFAULT_HTTPS_LISTENER_ADDRESS

def httpsPort (lvc : ListenerVisitorConfig) : Int :=
  if lvc.HTTPSPort ≠ 0 then lvc.HTTPSPort else DEFAULT_HTTPS_LISTENER_PORT

def httpsAccessLog (lvc : ListenerVisitorConfig) : String :=
  if lvc.HTTPSAccessLog ≠ "" then lvc.HTTPSAccessLog else DEFAULT_HTTPS_ACCESS_LOG

def accesslogType (lvc : ListenerVisitorConfig) : String :=
  if lvc.AccessLogType ≠ "" then lvc.AccessLogType else DEFAULT_ACCESS_LOG_TYPE

def accesslogFields (lvc : ListenerVisitorConfig) : Contour.AccessLogFields :=
  match lvc.AccessLogFields with
  | some fs => .fields fs
  | none => .DefaultFields

def newInsecureAccessLog (lvc : ListenerVisitorConfig) : AccessLog :=
  if lvc.accesslogType = "json" then
    envoy.FileAccessLogJSON lvc.httpAccessLog lvc.accesslogFields
  else
    envoy.FileAccessLogEnvoy lvc.httpAccessLog

def newSecureAccessLog (lvc : ListenerVisitorConfig) : AccessLog :=
  if lvc.accesslogType = "json" then
    envoy.FileAccessLogJSON lvc.httpsAccessLog lvc.accesslogFields
  else
    envoy.FileAccessLogEnvoy lvc.httpsAccessLog

def requestTimeout (lvc : ListenerVisitorConfig) : Int :=
  if lvc.RequestTimeout < 0 then 0 else lvc.RequestTimeout

def minProtoVersion (lvc : ListenerVisitorConfig) : TlsParameters_TlsProtocol :=
  if lvc.MinimumProtocolVersion > TlsParameters_TLSv1_1 then lvc.MinimumProtocolVersion
  else TlsParameters_TLSv1_1

end ListenerVisitorConfig

/-- Modelled from the spec: the change notifier `Cond` that `ListenerCache`
embeds (its declaration is not part of the sources): a fan-out wake-up
primitive on which observers block until the next change.  The embedding keeps
the number of signals issued so far and the observers currently blocked. -/
structure Cond where
  last : Nat := 0
  waiters : List Nat := []
  deriving DecidableEq, Repr

/-- Modelled from the spec: `Cond.Notify` wakes all currently blocked
observers, once per call, and buffers nothing. -/
def Cond.Notify (c : Cond) : Cond := { last := c.last + 1, waiters := [] }

/-- ListenerCache manages the contents of the gRPC LDS cache.  The mutex is
not part of the sequential state. -/
structure ListenerCache where
  values : GoMap Listener
  staticValues : GoMap Listener
  Cond : Cond := {}
  deriving DecidableEq, Repr

/-- NewListenerCache returns an instance of a ListenerCache.  The function
`envoy.StatsListener` (package internal/envoy is not part of the sources) is a
parameter; `values` starts as the nil map. -/
def NewListenerCache (StatsListener : String → Int → Listener) (address : String)
    (port : Int) : ListenerCache :=
  let stats := StatsListener address port
  { values := []
    staticValues := [(stats.Name, stats)] }

/-- The comparison `listenersByName.Less`, on the two elements compared. -/
def listenersByName.Less (a b : Listener) : Bool := stringLess a.Name b.Name

namespace ListenerCache

/-- Update replaces the contents of the cache with the supplied map. -/
def Update (c : ListenerCache) (v : GoMap Listener) : ListenerCache :=
  let c := { c with values := v }
  { c with Cond := c.Cond.Notify }

/-- Contents returns a copy of the cache's contents. -/
def Contents (c : ListenerCache) : List Listener :=
  let values : List Listener := []
  let values := c.values.foldl (fun values kv => values ++ [kv.2]) values
  let values := c.staticValues.foldl (fun values kv => values ++ [kv.2]) values
  sort.Stable listenersByName.Less values

/-- Query returns the listeners in the ListenerCache that match a slice of
strings. -/
def Query (c : ListenerCache) (names : List String) : List Listener :=
  let values : List Listener := []
  let values := names.foldl (fun values n =>
    match c.values.get? n with
    | some v => values ++ [v]
    | none =>
      match c.staticValues.get? n with
      | some v => values ++ [v]
      | none => values) values
  sort.Stable listenersByName.Less values

end ListenerCache

/-- The visitor state: the configuration, the listeners under construction and
the flag "at least one dag.VirtualHost encountered". -/
structure listenerVisitor where
  ListenerVisitorConfig : ListenerVisitorConfig
  listeners : GoMap Listener
  http : Bool
  deriving DecidableEq, Repr

def proxyProtocol (useProxy : Bool) : List ListenerFilter :=
  if useProxy then envoy.ListenerFilters [envoy.ProxyProtocol] else []

def secureProxyProtocol (useProxy : Bool) : List ListenerFilter :=
  proxyProtocol useProxy ++ [envoy.TLSInspector]

/-- The local function `max` of `visit`. -/
def visit.max (a b : TlsParameters_TlsProtocol) : TlsParameters_TlsProtocol :=
  if a > b then a else b

/-- The filter chain `fc` that the `*dag.SecureVirtualHost` case of `visit`
builds for the host `vh`. -/
def visit.fc (lvc : ListenerVisitorConfig) (vh : dag.SecureVirtualHost) : FilterChain :=
  let filters := envoy.Filters
    [envoy.HTTPConnectionManager ENVOY_HTTPS_LISTENER lvc.newSecureAccessLog lvc.requestTimeout]
  let alpnProtos := ["h2", "http/1.1"]
  let fa : List Filter × List String :=
    match vh.TCPProxy with
    | some tcp =>
      (envoy.Filters [envoy.TCPProxy ENVOY_HTTPS_LISTENER tcp lvc.newSecureAccessLog], [])
    | none => (filters, alpnProtos)
  envoy.FilterChainTLS vh.VirtualHost.Name
    (envoy.DownstreamTLSContext vh.Secret
      (visit.max lvc.minProtoVersion vh.MinProtoVersion)
      vh.DownstreamValidation fa.2)
    fa.1

mutual
/-- The method `listenerVisitor.visit`, as a function of the visitor state.
The append goes through the pointer stored under `ingress_https`, which
`visitListeners` puts there before the traversal and which stays there (see
`visit_https_present`). -/
def visit (v : listenerVisitor) : dag.Vertex → listenerVisitor
  | .virtualHost _ _ => { v with http := true }
  | .secureVirtualHost vh _ =>
    let fc := visit.fc v.ListenerVisitorConfig vh
    let listeners := v.listeners.modify ENVOY_HTTPS_LISTENER
      (fun l => { l with FilterChains := l.FilterChains ++ [fc] })
    { v with listeners := listeners }
  | .other children => Visit v children
/-- The call `vertex.Visit(v.visit)` of the default case: `visit` runs on each
child in turn. -/
def Visit (v : listenerVisitor) : List dag.Vertex → listenerVisitor
  | [] => v
  | c :: cs => Visit (visit v c) cs
end

/-- The sort key `FilterChainMatch.ServerNames[0]` of a filter chain.  Every
chain that `visit` appends has exactly one server name (see
`visit_fc_serverName`), so the defaults are never used. -/
def FilterChain.serverName0 (fc : FilterChain) : String :=
  match fc.FilterChainMatch with
  | some m => m.ServerNames.headD ""
  | none => ""

/-- The visitor `lv` as `visitListeners` creates it, with the `ingress_https`
listener seeded. -/
def visitListeners.lv (lvc : ListenerVisitorConfig) : listenerVisitor :=
  { ListenerVisitorConfig := lvc
    listeners :=
      [(ENVOY_HTTPS_LISTENER,
        envoy.Listener ENVOY_HTTPS_LISTENER lvc.httpsAddress lvc.httpsPort
          (secureProxyProtocol lvc.UseProxyProto) [])]
    http := false }

/-- The function `visitListeners`.  The expression
`lv.listeners[ENVOY_HTTPS_LISTENER].FilterChains` dereferences the pointer stored
under `ingress_https`; the entry is there after every traversal (see
`visit_https_present`), so the `none` branch is never taken. -/
def visitListeners (root : dag.Vertex) (lvc : ListenerVisitorConfig) : GoMap Listener :=
  let lv := visitListeners.lv lvc
  let lv := visit lv root
  -- add a listener if there are vhosts bound to http.
  let lv :=
    if lv.http then
      let l := envoy.Listener ENVOY_HTTP_LISTENER lvc.httpAddress lvc.httpPort
        (proxyProtocol lvc.UseProxyProto)
        [envoy.HTTPConnectionManager ENVOY_HTTP_LISTENER lvc.newInsecureAccessLog
          lvc.requestTimeout]
      { lv with listeners := lv.listeners.set ENVOY_HTTP_LISTENER l }
    else lv
  -- remove the https listener if there are no vhosts bound to it.
  let lv :=
    match lv.listeners.get? ENVOY_HTTPS_LISTENER with
    | none => lv
    | some l =>
      if l.FilterChains.length = 0 then
        { lv with listeners := lv.listeners.delete ENVOY_HTTPS_LISTENER }
      else
        let less := fun (a b : FilterChain) => stringLess a.serverName0 b.serverName0
        let listeners := lv.listeners.modify ENVOY_HTTPS_LISTENER
          (fun l => { l with FilterChains := sort.Stable less l.FilterChains })
        { lv with listeners := listeners }
  lv.listeners

/-- What a call does to the mutex `c.mu` and to the change notifier: the calls
`c.mu.Lock()`, `c.mu.Unlock()` and `c.Cond.Notify()`. -/
inductive Event where
  | Lock
  | Unlock
  | Notify
  deriving DecidableEq, Repr

/-- Whether the mutex is held after a sequence of events, starting free. -/
def Event.held (events : List Event) : Bool :=
  events.foldl (fun held e =>
    match e with
    | .Lock => true
    | .Unlock => false
    | .Notify => held) false

/-- The body of `Update` statement by statement, with the events it issues in
program order: the mutex is locked, its release is deferred, the map is
stored, the notifier is signalled, and on return the deferred release runs. -/
def ListenerCache.UpdateTraced (c : ListenerCache) (v : GoMap Listener) :
    ListenerCache × List Event :=
  -- c.mu.Lock()
  let events := [Event.Lock]
  -- defer c.mu.Unlock()
  let deferred := [Event.Unlock]
  -- c.values = v
  let c := { c with values := v }
  -- c.Cond.Notify()
  let c := { c with Cond := c.Cond.Notify }
  let events := events ++ [Event.Notify]
  -- return: the deferred calls run
  (c, events ++ deferred)

/-! ## shutdownmanager.go -/

def prometheusStat : String := "envoy_http_downstream_cx_active"

/-- The label allow-list; `xdscache_v3.ENVOY_HTTP_LISTENER` and
`xdscache_v3.ENVOY_HTTPS_LISTENER` are the listener names `ingress_http` and
`ingress_https`. -/
def prometheusLabels : List String := [ENVOY_HTTP_LISTENER, ENVOY_HTTPS_LISTENER]

/-- The fields of `shutdownmanagerContext`; durations are counts of
nanoseconds, the logger is left out. -/
structure shutdownmanagerContext where
  httpServePort : Int
  checkInterval : Int
  checkDelay : Int
  drainDelay : Int
  minOpenConnections : Int
  adminPort : Int
  maxDrainTime : Int
  deriving DecidableEq, Repr

def newShutdownManagerContext : shutdownmanagerContext :=
  { httpServePort := 8090
    checkInterval := 5 * 1000000000
    checkDelay := 60 * 1000000000
    drainDelay := 0
    minOpenConnections := 0
    adminPort := 9001
    maxDrainTime := 200 * 1000000000 }

namespace dto

/-- The Prometheus client message `LabelPair`; `GetValue()` of an unset value
is the empty string. -/
structure LabelPair where
  Name : String
  Value : String
  deriving DecidableEq, Repr

/-- The Prometheus client message `Gauge`.  The value is a float64 that
`parseOpenConnections` converts with `int(...)`; the embedding keeps the
converted value, a whole number of connections in the range of a Go `int`,
which `parseOpenConnections` adds as a Go `int`. -/
structure Gauge where
  Value : Int
  deriving DecidableEq, Repr

/-- The Prometheus client message `Metric`; the gauge pointer may be nil. -/
structure Metric where
  Label : List LabelPair
  Gauge : Option Gauge
  deriving DecidableEq, Repr

/-- The getter `Gauge.GetValue()`, which is 0 on a nil gauge. -/
def Metric.GaugeGetValue (m : Metric) : Int :=
  match m.Gauge with
  | some g => g.Value
  | none => 0

/-- The Prometheus client message `MetricFamily`. -/
structure MetricFamily where
  Name : String
  Metric : List Metric
  deriving DecidableEq, Repr

end dto

/-- An `io.Reader` that holds a metrics payload, given by what the Prometheus
library's `expfmt.TextParser.TextToMetricFamilies` returns on it: the parse
error, or the metric families by name. -/
structure Reader where
  TextToMetricFamilies : Except String (GoMap dto.MetricFamily)

/-- The errors that `getOpenConnections` and `parseOpenConnections` build with
`fmt.Errorf`, one constructor per call site, with the values they format. -/
inductive error where
  | getFailed (err : String)
  | getStatus (status : String)
  | statsNil
  | parseFailed (err : String)
  | statNotFound (stat : String)
  deriving DecidableEq, Repr

/-- The `*http.Response` of the metrics request. -/
structure Response where
  StatusCode : Int
  Status : String
  Body : Reader

def StatusOK : Int := 200

/-- parseOpenConnections returns the sum of open connections from a Prometheus
HTTP request.  A nil reader is `none`; `openConnections` is a Go `int`, so the
addition `+=` wraps around. -/
def parseOpenConnections (stats : Option Reader) : Int × Option error :=
  let openConnections : Int := 0
  match stats with
  | none => (-1, some .statsNil)
  | some stats =>
    -- Parse Prometheus http response
    match stats.TextToMetricFamilies with
    | .error err => (-1, some (.parseFailed err))
    | .ok metricFamilies =>
      -- Validate stat exists in output
      match metricFamilies.get? prometheusStat with
      | none => (-1, some (.statNotFound prometheusStat))
      | some family =>
        -- Look up open connections value
        let openConnections := family.Metric.foldl (fun openConnections metrics =>
          metrics.Label.foldl (fun openConnections labels =>
            prometheusLabels.foldl (fun openConnections item =>
              if item = labels.Value then goInt (openConnections + metrics.GaugeGetValue)
              else openConnections) openConnections) openConnections) openConnections
        (openConnections, none)

/-- getOpenConnections parses a http request to a prometheus endpoint returning
the sum of values found.  The outcome `get` of `http.Get(prometheusURL)` is an
input: the request error or the response. -/
def getOpenConnections (_adminPort : Int) (get : Except String Response) :
    Int × Option error :=
  match get with
  | .error err => (-1, some (.getFailed err))
  | .ok resp =>
    if resp.StatusCode ≠ StatusOK then (-1, some (.getStatus resp.Status))
    else parseOpenConnections (some resp.Body)

/-- The case of the `select` statement of the polling loop that fires. -/
inductive selectCase where
  | checkInterval
  | maxDrainTimeout
  | ctxDone
  deriving DecidableEq, Repr

/-- One iteration of the polling loop as the environment decides it: what
`http.Get` answers at this poll and which case of the `select` fires after it. -/
structure pollRound where
  get : Except String Response
  select : selectCase

/-- The `return` statement by which the polling loop ends. -/
inductive loopReturn where
  | minOpenConnections
  | maxDrainTimeout
  | ctxDone
  deriving DecidableEq, Repr

/-- The polling loop `for { ... }` of `shutdownReadyHandler` (log calls left
out), run against the rounds the environment provides.  The result is the
index of the poll at which the handler returns and the `return` taken; `none`
when the handler is still waiting after the last round given. -/
def shutdownReadyHandler.loop (s : shutdownmanagerContext) :
    List pollRound → Option (Nat × loopReturn)
  | [] => none
  | r :: rounds =>
    let next : Option (Nat × loopReturn) :=
      match r.select with
      | .checkInterval =>
        (shutdownReadyHandler.loop s rounds).map (fun p => (p.1 + 1, p.2))
      | .maxDrainTimeout => some (0, .maxDrainTimeout)
      | .ctxDone => some (0, .ctxDone)
    match getOpenConnections s.adminPort r.get with
    | (_, some _) => next
    | (openConnections, none) =>
      if openConnections ≤ s.minOpenConnections then some (0, .minOpenConnections)
      else next

/-! ## The traversal, as the specification describes it -/

mutual
/-- The TLS-terminated virtual hosts that the depth-first traversal from a
vertex encounters, in traversal order: the vertex itself, or hosts reached
through nodes of other kinds; nothing beneath a virtual host is looked at. -/
def dag.Vertex.secureVirtualHosts : dag.Vertex → List dag.SecureVirtualHost
  | .virtualHost _ _ => []
  | .secureVirtualHost vh _ => [vh]
  | .other children => dag.Vertex.secureVirtualHostsOf children
/-- The TLS-terminated virtual hosts encountered from a list of siblings. -/
def dag.Vertex.secureVirtualHostsOf : List dag.Vertex → List dag.SecureVirtualHost
  | [] => []
  | c :: cs => c.secureVirtualHosts ++ dag.Vertex.secureVirtualHostsOf cs
end

mutual
/-- The plaintext virtual hosts that the depth-first traversal from a vertex
encounters, in traversal order. -/
def dag.Vertex.virtualHosts : dag.Vertex → List dag.VirtualHost
  | .virtualHost vh _ => [vh]
  | .secureVirtualHost _ _ => []
  | .other children => dag.Vertex.virtualHostsOf children
/-- The plaintext virtual hosts encountered from a list of siblings. -/
def dag.Vertex.virtualHostsOf : List dag.Vertex → List dag.VirtualHost
  | [] => []
  | c :: cs => c.virtualHosts ++ dag.Vertex.virtualHostsOf cs
end

mutual
/-- Whether the graph below (and including) a vertex contains a TLS-terminated
virtual host anywhere, also beneath a virtual host. -/
def dag.Vertex.anySecureVirtualHost : dag.Vertex → Bool
  | .virtualHost _ children => dag.Vertex.anySecureVirtualHostOf children
  | .secureVirtualHost _ _ => true
  | .other children => dag.Vertex.anySecureVirtualHostOf children
/-- Whether one of the graphs below a list of siblings contains a
TLS-terminated virtual host. -/
def dag.Vertex.anySecureVirtualHostOf : List dag.Vertex → Bool
  | [] => false
  | c :: cs => c.anySecureVirtualHost || dag.Vertex.anySecureVirtualHostOf cs
end

mutual
/-- Whether the graph below (and including) a vertex contains a plaintext
virtual host anywhere, also beneath a virtual host. -/
def dag.Vertex.anyVirtualHost : dag.Vertex → Bool
  | .virtualHost _ _ => true
  | .secureVirtualHost _ children => dag.Vertex.anyVirtualHostOf children
  | .other children => dag.Vertex.anyVirtualHostOf children
/-- Whether one of the graphs below a list of siblings contains a plaintext
virtual host. -/
def dag.Vertex.anyVirtualHostOf : List dag.Vertex → Bool
  | [] => false
  | c :: cs => c.anyVirtualHost || dag.Vertex.anyVirtualHostOf cs
end

/-- Whether a pipeline is the raw TCP proxy (a raw-TCP passthrough). -/
def Filter.isTCPProxy : Filter → Bool
  | .TCPProxy _ _ _ => true
  | .HTTPConnectionManager _ _ _ => false

/-- The resource of the cache stored under a name, as `Query` finds it: the
dynamic map is looked up first, then the static map. -/
def ListenerCache.find? (c : ListenerCache) (n : String) : Option Listener :=
  match c.values.get? n with
  | some v => some v
  | none => c.staticValues.get? n

/-- Whether a metric carries a label whose value is in the allow-list
`prometheusLabels`. -/
def dto.Metric.hasListenerLabel (m : dto.Metric) : Bool :=
  m.Label.any (fun l => decide (l.Value ∈ prometheusLabels))

/-- The count of open connections as the specification describes it: the sum
of the gauge values of exactly those metrics of the family that carry a label
whose value is in the allow-list, each such metric counted once. -/
def dto.MetricFamily.openConnections (family : dto.MetricFamily) : Int :=
  ((family.Metric.filter dto.Metric.hasListenerLabel).map dto.Metric.GaugeGetValue).sum

/-- A vertex is reachable from another through nodes of other kinds only: it
is that vertex itself, or it is so reachable from a child of a node of another
kind.  The children of a virtual host lead nowhere. -/
inductive dag.Vertex.Reaches : dag.Vertex → dag.Vertex → Prop where
  | self (x : dag.Vertex) : dag.Vertex.Reaches x x
  | child (children : List dag.Vertex) (c x : dag.Vertex) :
      c ∈ children → dag.Vertex.Reaches c x → dag.Vertex.Reaches (.other children) x

mutual
/-- The graph below a vertex with everything beneath its virtual hosts
(plaintext or TLS-terminated) cut off. -/
def dag.Vertex.prune : dag.Vertex → dag.Vertex
  | .virtualHost vh _ => .virtualHost vh []
  | .secureVirtualHost vh _ => .secureVirtualHost vh []
  | .other children => .other (dag.Vertex.pruneAll children)
/-- The siblings of a list, each pruned. -/
def dag.Vertex.pruneAll : List dag.Vertex → List dag.Vertex
  | [] => []
  | c :: cs => c.prune :: dag.Vertex.pruneAll cs
end

/-! ## Sample inputs -/

namespace sample

/-- A policy with every field left at its zero value. -/
def lvc : ListenerVisitorConfig :=
  { HTTPAddress := "", HTTPPort := 0, HTTPAccessLog := "", HTTPSAddress := "", HTTPSPort := 0,
    HTTPSAccessLog := "", UseProxyProto := false, MinimumProtocolVersion := 0,
    AccessLogType := "", AccessLogFields := none, RequestTimeout := 0 }

/-- A TLS-terminated virtual host. -/
def host (name : String) (minProtoVersion : TlsParameters_TlsProtocol)
    (tcp : Option dag.TCPProxy) : dag.SecureVirtualHost :=
  { VirtualHost := { Name := name }, Secret := some { Name := "default/cert" },
    MinProtoVersion := minProtoVersion, TCPProxy := tcp, DownstreamValidation := none }

/-- A graph with the TLS hosts b, a, c (in traversal order) and one plaintext host. -/
def graph₁ : dag.Vertex :=
  .other [.secureVirtualHost (host "b.example.com" 0 none) [],
    .other [.secureVirtualHost (host "a.example.com" 3 (some { Clusters := ["backend"] })) []],
    .virtualHost { Name := "b.example.com" } [],
    .secureVirtualHost (host "c.example.com" 4 none) []]

/-- The same hosts as `graph₁`, met in the order c, a, b. -/
def graph₂ : dag.Vertex :=
  .other [.other [.secureVirtualHost (host "c.example.com" 4 none) [],
      .secureVirtualHost (host "a.example.com" 3 (some { Clusters := ["backend"] })) []],
    .secureVirtualHost (host "b.example.com" 0 none) []]

/-- A graph with TLS hosts only. -/
def graph₃ : dag.Vertex :=
  .other [.secureVirtualHost (host "a.example.com" 0 none) []]

/-- The `ingress_https` listener synthesized from `graph₁` under `lvc`. -/
def https₁ : Listener :=
  { Name := "ingress_https"
    Address := { Address := "0.0.0.0", Port := 8443 }
    ListenerFilters := [.TLSInspector]
    FilterChains :=
      [visit.fc lvc (host "a.example.com" 3 (some { Clusters := ["backend"] })),
       visit.fc lvc (host "b.example.com" 0 none),
       visit.fc lvc (host "c.example.com" 4 none)] }

/-- A listener with the given name and port and nothing else. -/
def listener (name : String) (port : Int) : Listener :=
  { Name := name, Address := { Address := "0.0.0.0", Port := port },
    ListenerFilters := [], FilterChains := [] }

/-- A cache with the static listener stats and the dynamic listeners y and x,
yielded in that order. -/
def cache₁ : ListenerCache :=
  { values := [("y", listener "y" 8443), ("x", listener "x" 8080)]
    staticValues := [("stats", listener "stats" 8002)] }

/-- The cache `cache₁` with its dynamic listeners yielded in the order x, y. -/
def cache₂ : ListenerCache :=
  { values := [("x", listener "x" 8080), ("y", listener "y" 8443)]
    staticValues := [("stats", listener "stats" 8002)] }

/-- A cache in which the name x is both a dynamic and a static key. -/
def cache₃ : ListenerCache :=
  { values := [("x", listener "x" 8080)]
    staticValues := [("x", listener "x" 9000), ("stats", listener "stats" 8002)] }

/-- A cache whose dynamic map holds two different listeners named x under the
keys k1 and k2. -/
def cache₄ : ListenerCache :=
  { values := [("k1", listener "x" 8080), ("k2", listener "x" 8443)]
    staticValues := [("stats", listener "stats" 8002)] }

/-- The cache `cache₄` with its dynamic entries yielded in the other order. -/
def cache₅ : ListenerCache :=
  { values := [("k2", listener "x" 8443), ("k1", listener "x" 8080)]
    staticValues := [("stats", listener "stats" 8002)] }

/-- A cache whose only dynamic entry is a, next to the static listener stats. -/
def cache₆ : ListenerCache :=
  { values := [("a", listener "a" 8080)]
    staticValues := [("stats", listener "stats" 8002)] }

/-- A policy with every tunable set. -/
def lvc₁ : ListenerVisitorConfig :=
  { HTTPAddress := "127.0.0.1", HTTPPort := 9080, HTTPAccessLog := "/tmp/http.log",
    HTTPSAddress := "127.0.0.2", HTTPSPort := 9443, HTTPSAccessLog := "/tmp/https.log",
    UseProxyProto := true, MinimumProtocolVersion := 3, AccessLogType := "json",
    AccessLogFields := some ["@timestamp"], RequestTimeout := 90 }

/-- The policy `lvc` with a negative request timeout. -/
def lvc₂ : ListenerVisitorConfig := { lvc with RequestTimeout := -1 }

/-- A metrics payload that parses to the one family
envoy_http_downstream_cx_active with one metric for `ingress_http`. -/
def payload (openConnections : Int) : Reader :=
  { TextToMetricFamilies := .ok
      [("envoy_http_downstream_cx_active",
        { Name := "envoy_http_downstream_cx_active"
          Metric :=
            [{ Label := [{ Name := "envoy_http_conn_manager_prefix", Value := "ingress_http" }]
               Gauge := some { Value := openConnections } }] })] }

/-- A poll answered with status 200 and the given count, followed by the
interval tick. -/
def round (openConnections : Int) : pollRound :=
  { get := .ok { StatusCode := 200, Status := "200 OK", Body := payload openConnections }
    select := .checkInterval }

/-- A poll whose request fails, followed by the interval tick. -/
def failedRound : pollRound :=
  { get := .error "connection refused", select := .checkInterval }

/-- A shutdown manager with the floor of 5 open connections. -/
def manager : shutdownmanagerContext :=
  { newShutdownManagerContext with minOpenConnections := 5 }

/-- A family envoy_http_downstream_cx_active whose only metric, with gauge 3,
carries two labels with allow-listed values. -/
def family₂ : dto.MetricFamily :=
  { Name := "envoy_http_downstream_cx_active"
    Metric :=
      [{ Label := [{ Name := "envoy_http_conn_manager_prefix", Value := "ingress_http" },
                   { Name := "envoy_listener", Value := "ingress_https" }]
         Gauge := some { Value := 3 } }] }

/-- The metrics payload that parses to `family₂`. -/
def payload₂ : Reader :=
  { TextToMetricFamilies := .ok [("envoy_http_downstream_cx_active", family₂)] }

/-- A metrics payload that parses but has no family
envoy_http_downstream_cx_active. -/
def payload₃ : Reader :=
  { TextToMetricFamilies := .ok
      [("envoy_cluster_upstream_cx_active",
        { Name := "envoy_cluster_upstream_cx_active", Metric := [] })] }

/-- The graph `graph₁` with further hosts beneath its virtual hosts. -/
def graph₄ : dag.Vertex :=
  .other [.secureVirtualHost (host "b.example.com" 0 none)
      [.secureVirtualHost (host "hidden.example.com" 0 none) [],
       .virtualHost { Name := "hidden.example.com" } []],
    .other [.secureVirtualHost (host "a.example.com" 3 (some { Clusters := ["backend"] })) []],
    .virtualHost { Name := "b.example.com" }
      [.secureVirtualHost (host "d.example.com" 0 none) []],
    .secureVirtualHost (host "c.example.com" 4 none) []]

/-- A graph with three plaintext virtual hosts and no TLS host. -/
def graph₅ : dag.Vertex :=
  .other [.virtualHost { Name := "a.example.com" } [],
    .other [.virtualHost { Name := "b.example.com" } [],
      .virtualHost { Name := "c.example.com" } []]]

/-- A cache with two dynamic listeners named x, under the keys k1 and k2, and
a static listener named x. -/
def cache₇ : ListenerCache :=
  { values := [("k1", listener "x" 8080), ("k2", listener "x" 8443)]
    staticValues := [("x", listener "x" 9000)] }

/-- A cache whose keys are not the Names of its listeners: the dynamic
listeners x and y under the keys k1 and k2, the static listener stats under s. -/
def cache₈ : ListenerCache :=
  { values := [("k1", listener "x" 8080), ("k2", listener "y" 8443)]
    staticValues := [("s", listener "stats" 8002)] }

/-- The cache `cache₈` with its dynamic entries yielded in the other order. -/
def cache₉ : ListenerCache :=
  { values := [("k2", listener "y" 8443), ("k1", listener "x" 8080)]
    staticValues := [("s", listener "stats" 8002)] }

/-- A metrics payload whose family envoy_http_downstream_cx_active has two
metrics, one per listener, each with the gauge 9000000000000000000. -/
def payload₄ : Reader :=
  { TextToMetricFamilies := .ok
      [("envoy_http_downstream_cx_active",
        { Name := "envoy_http_downstream_cx_active"
          Metric :=
            [{ Label := [{ Name := "envoy_http_conn_manager_prefix", Value := "ingress_http" }]
               Gauge := some { Value := 9000000000000000000 } },
             { Label := [{ Name := "envoy_http_conn_manager_prefix", Value := "ingress_https" }]
               Gauge := some { Value := 9000000000000000000 } }] })] }

end sample

/-! ## The order on strings and the stable sort -/

theorem stringLess_iff (a b : String) : stringLess a b = true ↔ a < b := by
  simp [stringLess, String.lt_iff]

theorem stringLess_eq_false_iff (a b : String) : stringLess a b = false ↔ b ≤ a := by
  rw [← not_lt, ← stringLess_iff]; simp

namespace sort

variable {α : Type}

theorem perm_insert (less : α → α → Bool) (a : α) :
    ∀ l : List α, (insert less a l).Perm (a :: l)
  | [] => List.Perm.refl _
  | b :: l => by
    unfold insert
    split
    · exact ((perm_insert less a l).cons b).trans (List.Perm.swap a b l)
    · exact List.Perm.refl _

theorem perm_Stable (less : α → α → Bool) : ∀ l : List α, (Stable less l).Perm l
  | [] => List.Perm.refl _
  | a :: l => (perm_insert less a _).trans ((perm_Stable less l).cons a)

theorem mem_Stable (less : α → α → Bool) (l : List α) (x : α) :
    x ∈ Stable less l ↔ x ∈ l :=
  (perm_Stable less l).mem_iff

theorem length_Stable (less : α → α → Bool) (l : List α) :
    (Stable less l).length = l.length :=
  (perm_Stable less l).length_eq

/-- Inserting into a list sorted by a string key keeps it sorted. -/
theorem pairwise_insert (key : α → String) (a : α) :
    ∀ l : List α, l.Pairwise (fun x y => key x ≤ key y) →
      (insert (fun x y => stringLess (key x) (key y)) a l).Pairwise (fun x y => key x ≤ key y)
  | [], _ => by simp [insert]
  | b :: l, h => by
    unfold insert
    rw [List.pairwise_cons] at h
    by_cases hba : stringLess (key b) (key a) = true
    · rw [if_pos hba, List.pairwise_cons]
      refine ⟨fun y hy => ?_, pairwise_insert key a l h.2⟩
      rcases List.mem_cons.1 ((perm_insert _ a l).mem_iff.1 hy) with rfl | hy
      · exact le_of_lt ((stringLess_iff _ _).1 hba)
      · exact h.1 y hy
    · rw [if_neg hba, List.pairwise_cons]
      have hab : key a ≤ key b := (stringLess_eq_false_iff _ _).1 (by simpa using hba)
      refine ⟨fun y hy => ?_, List.pairwise_cons.2 h⟩
      rcases List.mem_cons.1 hy with rfl | hy
      · exact hab
      · exact le_trans hab (h.1 y hy)

/-- The result of the stable sort by a string key is non-decreasing in the key. -/
theorem pairwise_Stable (key : α → String) :
    ∀ l : List α,
      (Stable (fun x y => stringLess (key x) (key y)) l).Pairwise (fun x y => key x ≤ key y)
  | [] => List.Pairwise.nil
  | a :: l => pairwise_insert key a _ (pairwise_Stable key l)

theorem filter_insert (key : α → String) (k : String) (a : α) :
    ∀ l : List α,
      (insert (fun x y => stringLess (key x) (key y)) a l).filter (fun x => key x = k) =
        (a :: l).filter (fun x => key x = k)
  | [] => by simp [insert]
  | b :: l => by
    unfold insert
    by_cases hba : stringLess (key b) (key a) = true
    · rw [if_pos hba]
      have hlt : key b < key a := (stringLess_iff _ _).1 hba
      have ih := filter_insert key k a l
      by_cases hb : key b = k
      · have ha : key a ≠ k := fun ha => by rw [hb, ha] at hlt; exact lt_irrefl _ hlt
        simp [List.filter_cons, hb, ha] at ih ⊢
        exact ih
      · simp [List.filter_cons, hb] at ih ⊢
        exact ih
    · rw [if_neg hba]

/-- The stable sort keeps the relative order of the elements with a given key. -/
theorem filter_Stable (key : α → String) (k : String) :
    ∀ l : List α,
      (Stable (fun x y => stringLess (key x) (key y)) l).filter (fun x => key x = k) =
        l.filter (fun x => key x = k)
  | [] => rfl
  | a :: l => by
    show (insert _ a (Stable _ l)).filter _ = _
    rw [filter_insert key k a, List.filter_cons, List.filter_cons, filter_Stable key k l]

/-- Two lists in non-decreasing key order with the same elements, no two of
which share a key, are equal. -/
theorem eq_of_perm_of_pairwise (key : α → String) {l₁ l₂ : List α} (hp : l₁.Perm l₂)
    (hinj : ∀ a ∈ l₁, ∀ b ∈ l₁, key a = key b → a = b)
    (h₁ : l₁.Pairwise (fun x y => key x ≤ key y))
    (h₂ : l₂.Pairwise (fun x y => key x ≤ key y)) : l₁ = l₂ := by
  induction l₁ generalizing l₂ with
  | nil => exact (List.Perm.nil_eq hp)
  | cons a l₁ ih =>
    cases l₂ with
    | nil => simp at hp
    | cons b l₂ =>
      rw [List.pairwise_cons] at h₁ h₂
      have hab : a = b := by
        have ha : a ∈ b :: l₂ := hp.mem_iff.1 (List.mem_cons_self _ _)
        have hb : b ∈ a :: l₁ := hp.mem_iff.2 (List.mem_cons_self _ _)
        rcases List.mem_cons.1 ha with h | ha
        · exact h
        rcases List.mem_cons.1 hb with h | hb
        · exact h.symm
        exact hinj a (List.mem_cons_self _ _) b (List.mem_cons_of_mem _ hb)
          (le_antisymm (h₁.1 b hb) (h₂.1 a ha))
      subst hab
      congr 1
      exact ih (List.Perm.cons_inv hp)
        (fun x hx y hy => hinj x (List.mem_cons_of_mem _ hx) y (List.mem_cons_of_mem _ hy))
        h₁.2 h₂.2

/-- The stable sort of a list without repeated keys depends only on the
elements of the list, not on their order. -/
theorem Stable_eq_of_perm (key : α → String) {l₁ l₂ : List α} (hp : l₁.Perm l₂)
    (hinj : ∀ a ∈ l₁, ∀ b ∈ l₁, key a = key b → a = b) :
    Stable (fun x y => stringLess (key x) (key y)) l₁ =
      Stable (fun x y => stringLess (key x) (key y)) l₂ :=
  eq_of_perm_of_pairwise key
    (((perm_Stable _ l₁).trans hp).trans (perm_Stable _ l₂).symm)
    (fun a ha b hb => hinj a ((mem_Stable _ _ _).1 ha) b ((mem_Stable _ _ _).1 hb))
    (pairwise_Stable key l₁) (pairwise_Stable key l₂)

/-- A list in non-decreasing key order is determined by its sublists of
elements with a given key. -/
theorem eq_of_pairwise_of_filter_eq (key : α → String) :
    ∀ r s : List α,
      r.Pairwise (fun x y => key x ≤ key y) → s.Pairwise (fun x y => key x ≤ key y) →
      (∀ k : String, r.filter (fun x => key x = k) = s.filter (fun x => key x = k)) → r = s
  | [], [], _, _, _ => rfl
  | [], b :: s, _, _, h => by
    have := h (key b)
    simp [List.filter_cons] at this
  | a :: r, [], _, _, h => by
    have := h (key a)
    simp [List.filter_cons] at this
  | a :: r, b :: s, hr, hs, h => by
    rw [List.pairwise_cons] at hr hs
    have hmem : ∀ (x : α) (l₁ l₂ : List α),
        (∀ k : String, l₁.filter (fun x => key x = k) = l₂.filter (fun x => key x = k)) →
        x ∈ l₁ → x ∈ l₂ := by
      intro x l₁ l₂ hf hx
      have : x ∈ l₁.filter (fun y => key y = key x) := by
        rw [List.mem_filter]; exact ⟨hx, by simp⟩
      rw [hf] at this
      exact (List.mem_filter.1 this).1
    have hab : key a = key b := by
      have ha : a ∈ b :: s := hmem a _ _ h (List.mem_cons_self _ _)
      have hb : b ∈ a :: r := hmem b _ _ (fun k => (h k).symm) (List.mem_cons_self _ _)
      apply le_antisymm
      · rcases List.mem_cons.1 hb with e | hb
        · rw [e]
        · exact hr.1 b hb
      · rcases List.mem_cons.1 ha with e | ha
        · rw [e]
        · exact hs.1 a ha
    have hhead : a = b := by
      have := h (key a)
      simp only [List.filter_cons, hab, decide_True, if_true] at this
      exact (List.cons.inj this).1
    subst hhead
    congr 1
    refine eq_of_pairwise_of_filter_eq key r s hr.2 hs.2 (fun k => ?_)
    have := h k
    by_cases hk : key a = k
    · simp only [List.filter_cons, hk, decide_True, if_true] at this
      exact (List.cons.inj this).2
    · simpa only [List.filter_cons, hk, decide_False, Bool.false_eq_true, if_false] using this

/-- The contract of Go's `sort.Stable` determines its result: a list in
non-decreasing key order in which the elements of every key stand as they did
in `l` is the list that `Stable` computes from `l`. -/
theorem Stable_unique (key : α → String) (l r : List α)
    (hsorted : r.Pairwise (fun x y => key x ≤ key y))
    (hstable : ∀ k : String, r.filter (fun x => key x = k) = l.filter (fun x => key x = k)) :
    r = Stable (fun x y => stringLess (key x) (key y)) l :=
  eq_of_pairwise_of_filter_eq key r _ hsorted (pairwise_Stable key l)
    (fun k => (hstable k).trans (filter_Stable key k l).symm)

end sort

/-! ## Go maps -/

namespace GoMap

variable {β : Type}

theorem get?_nil (k : String) : get? ([] : GoMap β) k = none := rfl

theorem modify_nil (k : String) (f : β → β) : modify ([] : GoMap β) k f = [] := rfl

theorem delete_nil (k : String) : delete ([] : GoMap β) k = [] := rfl

theorem get?_cons (k' : String) (v' : β) (m : GoMap β) (k : String) :
    get? ((k', v') :: m) k = if k = k' then some v' else get? m k := by
  by_cases h : k = k'
  · subst h; simp [get?, List.lookup]
  · have h' : (k == k') = false := by simpa using h
    simp [get?, List.lookup, h', h]

theorem modify_cons (k' : String) (v' : β) (m : GoMap β) (k : String) (f : β → β) :
    modify ((k', v') :: m) k f = (if k' = k then (k', f v') else (k', v')) :: modify m k f :=
  rfl

theorem delete_cons (k' : String) (v' : β) (m : GoMap β) (k : String) :
    delete ((k', v') :: m) k = if k' = k then delete m k else (k', v') :: delete m k := by
  by_cases h : k' = k <;> simp [delete, List.filter_cons, h]

theorem get?_set_self (m : GoMap β) (k : String) (v : β) : (m.set k v).get? k = some v := by
  induction m with
  | nil => simp [set, get?_cons]
  | cons kv m ih =>
    obtain ⟨k', v'⟩ := kv
    unfold set
    by_cases h : k' = k
    · simp [h, get?_cons]
    · simp [h, get?_cons, Ne.symm h, ih]

theorem get?_set_of_ne (m : GoMap β) {k j : String} (v : β) (h : j ≠ k) :
    (m.set k v).get? j = m.get? j := by
  induction m with
  | nil => simp [set, get?_cons, h, get?]
  | cons kv m ih =>
    obtain ⟨k', v'⟩ := kv
    unfold set
    by_cases hk : k' = k
    · subst hk; simp [get?_cons, h]
    · simp [hk, get?_cons, ih]

theorem get?_delete_self (m : GoMap β) (k : String) : (m.delete k).get? k = none := by
  induction m with
  | nil => rfl
  | cons kv m ih =>
    obtain ⟨k', v'⟩ := kv
    by_cases h : k' = k
    · simp [delete_cons, h, ih]
    · simp [delete_cons, h, get?_cons, Ne.symm h, ih]

theorem get?_delete_of_ne (m : GoMap β) {k j : String} (h : j ≠ k) :
    (m.delete k).get? j = m.get? j := by
  induction m with
  | nil => rfl
  | cons kv m ih =>
    obtain ⟨k', v'⟩ := kv
    by_cases hk : k' = k
    · subst hk; simp [delete_cons, get?_cons, h, ih]
    · simp [delete_cons, hk, get?_cons, ih]

theorem get?_modify_self (m : GoMap β) (k : String) (f : β → β) :
    (m.modify k f).get? k = (m.get? k).map f := by
  induction m with
  | nil => rfl
  | cons kv m ih =>
    obtain ⟨k', v'⟩ := kv
    by_cases h : k' = k
    · subst h; simp [modify_cons, get?_cons]
    · simp [modify_cons, h, get?_cons, Ne.symm h, ih]

theorem get?_modify_of_ne (m : GoMap β) {k j : String} (f : β → β) (h : j ≠ k) :
    (m.modify k f).get? j = m.get? j := by
  induction m with
  | nil => rfl
  | cons kv m ih =>
    obtain ⟨k', v'⟩ := kv
    by_cases hk : k' = k
    · subst hk; simp [modify_cons, get?_cons, h, ih]
    · simp [modify_cons, hk, get?_cons, ih]

theorem modify_modify (m : GoMap β) (k : String) (f g : β → β) :
    (m.modify k f).modify k g = m.modify k (fun x => g (f x)) := by
  induction m with
  | nil => rfl
  | cons kv m ih =>
    obtain ⟨k', v'⟩ := kv
    by_cases h : k' = k
    · subst h; simp [modify_cons, ih]
    · simp [modify_cons, h, ih]

theorem modify_id (m : GoMap β) (k : String) (f : β → β) (hf : ∀ x, f x = x) :
    m.modify k f = m := by
  induction m with
  | nil => rfl
  | cons kv m ih =>
    obtain ⟨k', v'⟩ := kv
    by_cases h : k' = k
    · subst h; simp [modify_cons, ih, hf]
    · simp [modify_cons, h, ih]

end GoMap

/-! ## The traversal -/

mutual
/-- The effect of `visit` on the visitor: one filter chain appended per
TLS-terminated virtual host encountered, the flag raised by a plaintext one. -/
theorem visit_eq (v : listenerVisitor) : ∀ x : dag.Vertex,
    visit v x =
      { ListenerVisitorConfig := v.ListenerVisitorConfig
        listeners := v.listeners.modify ENVOY_HTTPS_LISTENER (fun l =>
          { l with FilterChains := l.FilterChains ++
              x.secureVirtualHosts.map (visit.fc v.ListenerVisitorConfig) })
        http := v.http || !x.virtualHosts.isEmpty }
  | .virtualHost vh cs => by
    simp [visit, dag.Vertex.secureVirtualHosts, dag.Vertex.virtualHosts, GoMap.modify_id]
  | .secureVirtualHost vh cs => by
    simp [visit, dag.Vertex.secureVirtualHosts, dag.Vertex.virtualHosts]
  | .other cs => by
    simp only [visit, dag.Vertex.secureVirtualHosts, dag.Vertex.virtualHosts]
    exact Visit_eq v cs
/-- The effect of the traversal of a list of siblings. -/
theorem Visit_eq (v : listenerVisitor) : ∀ cs : List dag.Vertex,
    Visit v cs =
      { ListenerVisitorConfig := v.ListenerVisitorConfig
        listeners := v.listeners.modify ENVOY_HTTPS_LISTENER (fun l =>
          { l with FilterChains := l.FilterChains ++
              (dag.Vertex.secureVirtualHostsOf cs).map (visit.fc v.ListenerVisitorConfig) })
        http := v.http || !(dag.Vertex.virtualHostsOf cs).isEmpty }
  | [] => by
    simp [Visit, dag.Vertex.secureVirtualHostsOf, dag.Vertex.virtualHostsOf, GoMap.modify_id]
  | c :: cs => by
    rw [Visit, visit_eq v c, Visit_eq _ cs]
    cases hc : c.virtualHosts <;>
      simp [dag.Vertex.secureVirtualHostsOf, dag.Vertex.virtualHostsOf, GoMap.modify_modify,
        List.append_assoc, hc]
end

theorem ENVOY_HTTP_LISTENER_ne : ENVOY_HTTP_LISTENER ≠ ENVOY_HTTPS_LISTENER := by decide

/-- The `ingress_https` listener with which `visitListeners` seeds the visitor
has no filter chain. -/
theorem lv_get?_https (lvc : ListenerVisitorConfig) :
    (visitListeners.lv lvc).listeners.get? ENVOY_HTTPS_LISTENER =
      some (envoy.Listener ENVOY_HTTPS_LISTENER lvc.httpsAddress lvc.httpsPort
        (secureProxyProtocol lvc.UseProxyProto) []) := by
  simp [visitListeners.lv, GoMap.get?_cons]

/-- During the traversal the `ingress_https` entry stays in the map, so the
pointer that `visit` appends through is never nil. -/
theorem visit_https_present (v : listenerVisitor) (x : dag.Vertex) (l : Listener)
    (h : v.listeners.get? ENVOY_HTTPS_LISTENER = some l) :
    (visit v x).listeners.get? ENVOY_HTTPS_LISTENER =
      some { l with FilterChains := l.FilterChains ++
        x.secureVirtualHosts.map (visit.fc v.ListenerVisitorConfig) } := by
  rw [visit_eq]
  simp [GoMap.get?_modify_self, h]

/-- Every filter chain built by `visit` has exactly one server name, the name
of its host, which is its sort key. -/
theorem visit_fc_serverName (lvc : ListenerVisitorConfig) (vh : dag.SecureVirtualHost) :
    (visit.fc lvc vh).FilterChainMatch = some { ServerNames := [vh.VirtualHost.Name] } ∧
      (visit.fc lvc vh).serverName0 = vh.VirtualHost.Name := by
  simp [visit.fc, envoy.FilterChainTLS, FilterChain.serverName0]

/-- The state of the visitor after the traversal started by `visitListeners`. -/
theorem visit_lv (root : dag.Vertex) (lvc : ListenerVisitorConfig) :
    visit (visitListeners.lv lvc) root =
      { ListenerVisitorConfig := lvc
        listeners :=
          [(ENVOY_HTTPS_LISTENER,
            { envoy.Listener ENVOY_HTTPS_LISTENER lvc.httpsAddress lvc.httpsPort
                (secureProxyProtocol lvc.UseProxyProto) [] with
              FilterChains := root.secureVirtualHosts.map (visit.fc lvc) })]
        http := !root.virtualHosts.isEmpty } := by
  rw [visit_eq]
  simp [visitListeners.lv, GoMap.modify_cons, GoMap.modify_nil, envoy.Listener]

/-- The `ingress_https` entry of the result of `visitListeners`. -/
theorem visitListeners_get?_https (root : dag.Vertex) (lvc : ListenerVisitorConfig) :
    (visitListeners root lvc).get? ENVOY_HTTPS_LISTENER =
      if root.secureVirtualHosts = [] then none
      else some
        { envoy.Listener ENVOY_HTTPS_LISTENER lvc.httpsAddress lvc.httpsPort
            (secureProxyProtocol lvc.UseProxyProto) [] with
          FilterChains :=
            sort.Stable (fun a b => stringLess a.serverName0 b.serverName0)
              (root.secureVirtualHosts.map (visit.fc lvc)) } := by
  unfold visitListeners
  simp only [visit_lv]
  have hne := ENVOY_HTTP_LISTENER_ne
  cases hs : root.secureVirtualHosts <;> cases hp : root.virtualHosts <;>
    simp [GoMap.set, GoMap.get?_cons, GoMap.modify_cons, GoMap.delete_cons, GoMap.get?_nil,
      GoMap.modify_nil, GoMap.delete_nil, hne, Ne.symm hne]

/-- The `ingress_http` entry of the result of `visitListeners`. -/
theorem visitListeners_get?_http (root : dag.Vertex) (lvc : ListenerVisitorConfig) :
    (visitListeners root lvc).get? ENVOY_HTTP_LISTENER =
      if root.virtualHosts = [] then none
      else some
        (envoy.Listener ENVOY_HTTP_LISTENER lvc.httpAddress lvc.httpPort
          (proxyProtocol lvc.UseProxyProto)
          [envoy.HTTPConnectionManager ENVOY_HTTP_LISTENER lvc.newInsecureAccessLog
            lvc.requestTimeout]) := by
  unfold visitListeners
  simp only [visit_lv]
  have hne := ENVOY_HTTP_LISTENER_ne
  cases hs : root.secureVirtualHosts <;> cases hp : root.virtualHosts <;>
    simp [GoMap.set, GoMap.get?_cons, GoMap.modify_cons, GoMap.delete_cons, GoMap.get?_nil,
      GoMap.modify_nil, GoMap.delete_nil, hne, Ne.symm hne]

mutual
theorem secureVirtualHosts_eq_nil_of_any : ∀ x : dag.Vertex,
    x.anySecureVirtualHost = false → x.secureVirtualHosts = []
  | .virtualHost _ _, _ => rfl
  | .secureVirtualHost _ _, h => by simp [dag.Vertex.anySecureVirtualHost] at h
  | .other cs, h => by
    simp only [dag.Vertex.anySecureVirtualHost] at h
    simp only [dag.Vertex.secureVirtualHosts]
    exact secureVirtualHostsOf_eq_nil_of_any cs h
theorem secureVirtualHostsOf_eq_nil_of_any : ∀ cs : List dag.Vertex,
    dag.Vertex.anySecureVirtualHostOf cs = false → dag.Vertex.secureVirtualHostsOf cs = []
  | [], _ => rfl
  | c :: cs, h => by
    simp only [dag.Vertex.anySecureVirtualHostOf, Bool.or_eq_false_iff] at h
    simp only [dag.Vertex.secureVirtualHostsOf, secureVirtualHosts_eq_nil_of_any c h.1,
      secureVirtualHostsOf_eq_nil_of_any cs h.2, List.append_nil]
end

mutual
theorem virtualHosts_eq_nil_of_any : ∀ x : dag.Vertex,
    x.anyVirtualHost = false → x.virtualHosts = []
  | .virtualHost _ _, h => by simp [dag.Vertex.anyVirtualHost] at h
  | .secureVirtualHost _ _, _ => rfl
  | .other cs, h => by
    simp only [dag.Vertex.anyVirtualHost] at h
    simp only [dag.Vertex.virtualHosts]
    exact virtualHostsOf_eq_nil_of_any cs h
theorem virtualHostsOf_eq_nil_of_any : ∀ cs : List dag.Vertex,
    dag.Vertex.anyVirtualHostOf cs = false → dag.Vertex.virtualHostsOf cs = []
  | [], _ => rfl
  | c :: cs, h => by
    simp only [dag.Vertex.anyVirtualHostOf, Bool.or_eq_false_iff] at h
    simp only [dag.Vertex.virtualHostsOf, virtualHosts_eq_nil_of_any c h.1,
      virtualHostsOf_eq_nil_of_any cs h.2, List.append_nil]
end

/-! ## Claims on the visitor -/

/-- C1: whenever `visitListeners` returns an `ingress_https` listener, its
filter chains are the stable sort by SNI server name of the chains that the
traversal appended (the chains of the `ingress_https` listener in the visitor
after `visit`): they are a permutation of the appended chains, non-decreasing
in `ServerNames[0]`, and for every server name the chains with that name stand
in their traversal order; each chain has exactly one server name. -/
theorem visitListeners_https_chains_stable_sorted (root : dag.Vertex)
    (lvc : ListenerVisitorConfig) (l : Listener)
    (h : (visitListeners root lvc).get? ENVOY_HTTPS_LISTENER = some l) :
    ∃ l₀ : Listener,
      (visit (visitListeners.lv lvc) root).listeners.get? ENVOY_HTTPS_LISTENER = some l₀ ∧
      l.FilterChains.Perm l₀.FilterChains ∧
      l.FilterChains.Pairwise (fun a b => a.serverName0 ≤ b.serverName0) ∧
      (∀ name : String,
        l.FilterChains.filter (fun fc => fc.serverName0 = name) =
          l₀.FilterChains.filter (fun fc => fc.serverName0 = name)) ∧
      (∀ fc ∈ l.FilterChains, ∃ name : String,
        fc.FilterChainMatch = some { ServerNames := [name] } ∧ fc.serverName0 = name) := by
  rw [visitListeners_get?_https] at h
  by_cases hs : root.secureVirtualHosts = []
  · simp [hs] at h
  · rw [if_neg hs] at h
    have hl := (Option.some.inj h).symm
    refine ⟨_, visit_https_present _ root _ (lv_get?_https lvc), ?_⟩
    subst hl
    simp only [envoy.Listener, visitListeners.lv, List.nil_append, List.length_nil,
      gt_iff_lt, lt_self_iff_false, if_false]
    refine ⟨sort.perm_Stable _ _, sort.pairwise_Stable FilterChain.serverName0 _,
      fun name => sort.filter_Stable FilterChain.serverName0 name _, ?_⟩
    intro fc hfc
    rw [sort.mem_Stable, List.mem_map] at hfc
    obtain ⟨vh, -, rfl⟩ := hfc
    exact ⟨vh.VirtualHost.Name, visit_fc_serverName lvc vh⟩

theorem visitListeners_https_chains_stable_sorted_witness :
    (visitListeners sample.graph₁ sample.lvc).get? ENVOY_HTTPS_LISTENER = some sample.https₁ ∧
    ∃ l₀ : Listener,
      (visit (visitListeners.lv sample.lvc) sample.graph₁).listeners.get? ENVOY_HTTPS_LISTENER
        = some l₀ ∧
      sample.https₁.FilterChains.Perm l₀.FilterChains ∧
      sample.https₁.FilterChains.Pairwise (fun a b => a.serverName0 ≤ b.serverName0) ∧
      (∀ name : String,
        sample.https₁.FilterChains.filter (fun fc => fc.serverName0 = name) =
          l₀.FilterChains.filter (fun fc => fc.serverName0 = name)) ∧
      (∀ fc ∈ sample.https₁.FilterChains, ∃ name : String,
        fc.FilterChainMatch = some { ServerNames := [name] } ∧ fc.serverName0 = name) :=
  ⟨by decide,
    visitListeners_https_chains_stable_sorted sample.graph₁ sample.lvc sample.https₁ (by decide)⟩

/-- C2: two graphs whose traversals encounter the same TLS-terminated virtual
hosts (with pairwise distinct names) in different orders give, under the same
policy, the same `ingress_https` entry, so the same list of filter chains,
element for element. -/
theorem visitListeners_https_order_independent (g₁ g₂ : dag.Vertex)
    (lvc : ListenerVisitorConfig)
    (hperm : g₁.secureVirtualHosts.Perm g₂.secureVirtualHosts)
    (hnames : (g₁.secureVirtualHosts.map (fun vh => vh.VirtualHost.Name)).Nodup) :
    (visitListeners g₁ lvc).get? ENVOY_HTTPS_LISTENER =
        (visitListeners g₂ lvc).get? ENVOY_HTTPS_LISTENER ∧
      ((visitListeners g₁ lvc).get? ENVOY_HTTPS_LISTENER).map (fun l => l.FilterChains) =
        ((visitListeners g₂ lvc).get? ENVOY_HTTPS_LISTENER).map (fun l => l.FilterChains) := by
  have key : (visitListeners g₁ lvc).get? ENVOY_HTTPS_LISTENER =
      (visitListeners g₂ lvc).get? ENVOY_HTTPS_LISTENER := by
    rw [visitListeners_get?_https, visitListeners_get?_https]
    have hnil : g₁.secureVirtualHosts = [] ↔ g₂.secureVirtualHosts = [] :=
      ⟨fun h => by rw [h] at hperm; exact hperm.symm.eq_nil,
       fun h => by rw [h] at hperm; exact hperm.eq_nil⟩
    have hsort := sort.Stable_eq_of_perm FilterChain.serverName0
      (hperm.map (visit.fc lvc)) (by
        intro a ha b hb hab
        rw [List.mem_map] at ha hb
        obtain ⟨x, hx, rfl⟩ := ha
        obtain ⟨y, hy, rfl⟩ := hb
        rw [(visit_fc_serverName lvc x).2, (visit_fc_serverName lvc y).2] at hab
        rw [List.inj_on_of_nodup_map hnames hx hy hab])
    by_cases h₁ : g₁.secureVirtualHosts = []
    · rw [if_pos h₁, if_pos (hnil.1 h₁)]
    · rw [if_neg h₁, if_neg (fun h => h₁ (hnil.2 h)), hsort]
  exact ⟨key, by rw [key]⟩

theorem visitListeners_https_order_independent_witness :
    (sample.graph₁.secureVirtualHosts.Perm sample.graph₂.secureVirtualHosts ∧
      (sample.graph₁.secureVirtualHosts.map (fun vh => vh.VirtualHost.Name)).Nodup) ∧
    ((visitListeners sample.graph₁ sample.lvc).get? ENVOY_HTTPS_LISTENER =
        (visitListeners sample.graph₂ sample.lvc).get? ENVOY_HTTPS_LISTENER ∧
      ((visitListeners sample.graph₁ sample.lvc).get? ENVOY_HTTPS_LISTENER).map
          (fun l => l.FilterChains) =
        ((visitListeners sample.graph₂ sample.lvc).get? ENVOY_HTTPS_LISTENER).map
          (fun l => l.FilterChains)) :=
  ⟨⟨by decide, by decide⟩,
    visitListeners_https_order_independent sample.graph₁ sample.graph₂ sample.lvc
      (by decide) (by decide)⟩

/-- C3: on a TLS-terminated virtual host `visit` appends one filter chain whose
minimum TLS version is the greater of the policy minimum (as resolved by
`minProtoVersion`) and the host's requested minimum: the policy minimum when
the host requests a lower version, the host's request when it is higher. -/
theorem visit_chain_min_tls_version (v : listenerVisitor) (vh : dag.SecureVirtualHost)
    (children : List dag.Vertex) (l : Listener)
    (h : v.listeners.get? ENVOY_HTTPS_LISTENER = some l) :
    ∃ (fc : FilterChain) (tls : DownstreamTlsContext),
      (visit v (.secureVirtualHost vh children)).listeners.get? ENVOY_HTTPS_LISTENER =
        some { l with FilterChains := l.FilterChains ++ [fc] } ∧
      fc.TlsContext = some tls ∧
      tls.TlsMinimumProtocolVersion =
        Max.max v.ListenerVisitorConfig.minProtoVersion vh.MinProtoVersion ∧
      (vh.MinProtoVersion < v.ListenerVisitorConfig.minProtoVersion →
        tls.TlsMinimumProtocolVersion = v.ListenerVisitorConfig.minProtoVersion) ∧
      (v.ListenerVisitorConfig.minProtoVersion < vh.MinProtoVersion →
        tls.TlsMinimumProtocolVersion = vh.MinProtoVersion) := by
  refine ⟨visit.fc v.ListenerVisitorConfig vh, _, ?_, rfl, ?_, ?_, ?_⟩
  · simp [visit, GoMap.get?_modify_self, h]
  · simp only [envoy.DownstreamTLSContext, visit.max]
    split
    · next hgt => exact (max_eq_left (le_of_lt hgt)).symm
    · next hle => exact (max_eq_right (not_lt.1 hle)).symm
  · intro hlt
    simp only [envoy.DownstreamTLSContext, visit.max]
    rw [if_pos hlt]
  · intro hlt
    simp only [envoy.DownstreamTLSContext, visit.max]
    rw [if_neg (not_lt.2 (le_of_lt hlt))]

theorem visit_chain_min_tls_version_witness :
    (visitListeners.lv sample.lvc).listeners.get? ENVOY_HTTPS_LISTENER =
      some (envoy.Listener ENVOY_HTTPS_LISTENER "0.0.0.0" 8443 [.TLSInspector] []) ∧
    ∃ (fc : FilterChain) (tls : DownstreamTlsContext),
      (visit (visitListeners.lv sample.lvc)
          (.secureVirtualHost (sample.host "a.example.com" 3 none) [])).listeners.get?
          ENVOY_HTTPS_LISTENER =
        some { envoy.Listener ENVOY_HTTPS_LISTENER "0.0.0.0" 8443 [.TLSInspector] [] with
          FilterChains :=
            (envoy.Listener ENVOY_HTTPS_LISTENER "0.0.0.0" 8443 [.TLSInspector] []).FilterChains
              ++ [fc] } ∧
      fc.TlsContext = some tls ∧
      tls.TlsMinimumProtocolVersion =
        Max.max (visitListeners.lv sample.lvc).ListenerVisitorConfig.minProtoVersion
          (sample.host "a.example.com" 3 none).MinProtoVersion ∧
      ((sample.host "a.example.com" 3 none).MinProtoVersion <
          (visitListeners.lv sample.lvc).ListenerVisitorConfig.minProtoVersion →
        tls.TlsMinimumProtocolVersion =
          (visitListeners.lv sample.lvc).ListenerVisitorConfig.minProtoVersion) ∧
      ((visitListeners.lv sample.lvc).ListenerVisitorConfig.minProtoVersion <
          (sample.host "a.example.com" 3 none).MinProtoVersion →
        tls.TlsMinimumProtocolVersion = (sample.host "a.example.com" 3 none).MinProtoVersion) :=
  ⟨by decide,
    visit_chain_min_tls_version (visitListeners.lv sample.lvc)
      (sample.host "a.example.com" 3 none) []
      (envoy.Listener ENVOY_HTTPS_LISTENER "0.0.0.0" 8443 [.TLSInspector] []) (by decide)⟩

/-- The ALPN list and the pipeline of the chain that `visit` builds for a host. -/
theorem visit_fc_alpn (lvc : ListenerVisitorConfig) (vh : dag.SecureVirtualHost) :
    ∃ tls : DownstreamTlsContext, (visit.fc lvc vh).TlsContext = some tls ∧
      (vh.TCPProxy = none →
        tls.AlpnProtocols = ["h2", "http/1.1"] ∧
        (visit.fc lvc vh).Filters =
          [envoy.HTTPConnectionManager ENVOY_HTTPS_LISTENER lvc.newSecureAccessLog
            lvc.requestTimeout]) ∧
      (∀ tcp : dag.TCPProxy, vh.TCPProxy = some tcp →
        tls.AlpnProtocols = [] ∧
        (visit.fc lvc vh).Filters =
          [envoy.TCPProxy ENVOY_HTTPS_LISTENER tcp lvc.newSecureAccessLog]) := by
  refine ⟨_, rfl, ?_, ?_⟩
  · intro hnone
    simp [visit.fc, envoy.FilterChainTLS, envoy.DownstreamTLSContext, envoy.Filters, hnone]
  · intro tcp hsome
    simp [visit.fc, envoy.FilterChainTLS, envoy.DownstreamTLSContext, envoy.Filters, hsome]

/-- C4: the chain that `visit` appends for a TLS-terminated virtual host offers
ALPN exactly `["h2", "http/1.1"]` with the HTTP connection manager pipeline when
the host has no TCPProxy, and an empty ALPN list with the TCP proxy pipeline when
it has one; hence in every `ingress_https` listener that `visitListeners`
returns, a chain with a non-empty ALPN list has no TCP proxy pipeline. -/
theorem visit_chain_alpn_pipeline (v : listenerVisitor) (vh : dag.SecureVirtualHost)
    (children : List dag.Vertex) (l : Listener)
    (h : v.listeners.get? ENVOY_HTTPS_LISTENER = some l)
    (root : dag.Vertex) (l' : Listener)
    (h' : (visitListeners root v.ListenerVisitorConfig).get? ENVOY_HTTPS_LISTENER = some l') :
    (∃ (fc : FilterChain) (tls : DownstreamTlsContext),
      (visit v (.secureVirtualHost vh children)).listeners.get? ENVOY_HTTPS_LISTENER =
        some { l with FilterChains := l.FilterChains ++ [fc] } ∧
      fc.TlsContext = some tls ∧
      (vh.TCPProxy = none →
        tls.AlpnProtocols = ["h2", "http/1.1"] ∧
        fc.Filters =
          [envoy.HTTPConnectionManager ENVOY_HTTPS_LISTENER
            v.ListenerVisitorConfig.newSecureAccessLog v.ListenerVisitorConfig.requestTimeout]) ∧
      (∀ tcp : dag.TCPProxy, vh.TCPProxy = some tcp →
        tls.AlpnProtocols = [] ∧
        fc.Filters =
          [envoy.TCPProxy ENVOY_HTTPS_LISTENER tcp
            v.ListenerVisitorConfig.newSecureAccessLog])) ∧
    (∀ fc ∈ l'.FilterChains, ∀ tls : DownstreamTlsContext, fc.TlsContext = some tls →
      tls.AlpnProtocols ≠ [] → ∀ f ∈ fc.Filters, f.isTCPProxy = false) := by
  constructor
  · obtain ⟨tls, htls, hnone, hsome⟩ := visit_fc_alpn v.ListenerVisitorConfig vh
    refine ⟨visit.fc v.ListenerVisitorConfig vh, tls, ?_, htls, hnone, hsome⟩
    simp [visit, GoMap.get?_modify_self, h]
  · rw [visitListeners_get?_https] at h'
    by_cases hs : root.secureVirtualHosts = []
    · simp [hs] at h'
    · rw [if_neg hs] at h'
      have hl := (Option.some.inj h').symm
      subst hl
      intro fc hfc tls htls halpn f hf
      simp only [sort.mem_Stable, List.mem_map] at hfc
      obtain ⟨x, -, rfl⟩ := hfc
      obtain ⟨tls', htls', hnone, hsome⟩ := visit_fc_alpn v.ListenerVisitorConfig x
      rw [htls'] at htls
      have := Option.some.inj htls
      subst this
      cases hx : x.TCPProxy with
      | none =>
        rw [(hnone hx).2] at hf
        rw [List.mem_singleton] at hf
        subst hf
        rfl
      | some tcp => exact absurd (hsome tcp hx).1 halpn

theorem visit_chain_alpn_pipeline_witness :
    ((visitListeners.lv sample.lvc).listeners.get? ENVOY_HTTPS_LISTENER =
        some (envoy.Listener ENVOY_HTTPS_LISTENER "0.0.0.0" 8443 [.TLSInspector] []) ∧
      (visitListeners sample.graph₁
        (visitListeners.lv sample.lvc).ListenerVisitorConfig).get? ENVOY_HTTPS_LISTENER =
        some sample.https₁) ∧
    ((∃ (fc : FilterChain) (tls : DownstreamTlsContext),
      (visit (visitListeners.lv sample.lvc)
          (.secureVirtualHost
            (sample.host "a.example.com" 3 (some { Clusters := ["backend"] })) [])).listeners.get?
          ENVOY_HTTPS_LISTENER =
        some { envoy.Listener ENVOY_HTTPS_LISTENER "0.0.0.0" 8443 [.TLSInspector] [] with
          FilterChains :=
            (envoy.Listener ENVOY_HTTPS_LISTENER "0.0.0.0" 8443 [.TLSInspector] []).FilterChains
              ++ [fc] } ∧
      fc.TlsContext = some tls ∧
      ((sample.host "a.example.com" 3 (some { Clusters := ["backend"] })).TCPProxy = none →
        tls.AlpnProtocols = ["h2", "http/1.1"] ∧
        fc.Filters =
          [envoy.HTTPConnectionManager ENVOY_HTTPS_LISTENER
            (visitListeners.lv sample.lvc).ListenerVisitorConfig.newSecureAccessLog
            (visitListeners.lv sample.lvc).ListenerVisitorConfig.requestTimeout]) ∧
      (∀ tcp : dag.TCPProxy,
        (sample.host "a.example.com" 3 (some { Clusters := ["backend"] })).TCPProxy = some tcp →
        tls.AlpnProtocols = [] ∧
        fc.Filters =
          [envoy.TCPProxy ENVOY_HTTPS_LISTENER tcp
            (visitListeners.lv sample.lvc).ListenerVisitorConfig.newSecureAccessLog])) ∧
    (∀ fc ∈ sample.https₁.FilterChains, ∀ tls : DownstreamTlsContext, fc.TlsContext = some tls →
      tls.AlpnProtocols ≠ [] → ∀ f ∈ fc.Filters, f.isTCPProxy = false)) :=
  ⟨⟨by decide, by decide⟩,
    visit_chain_alpn_pipeline (visitListeners.lv sample.lvc)
      (sample.host "a.example.com" 3 (some { Clusters := ["backend"] })) []
      (envoy.Listener ENVOY_HTTPS_LISTENER "0.0.0.0" 8443 [.TLSInspector] []) (by decide)
      sample.graph₁ sample.https₁ (by decide)⟩

/-- C5: the mapping returned by `visitListeners` has an `ingress_https` entry
exactly when the traversal encountered at least one TLS-terminated virtual
host; a graph that contains no TLS-terminated virtual host at all has no
`ingress_https` entry. -/
theorem visitListeners_https_entry_iff (root : dag.Vertex) (lvc : ListenerVisitorConfig) :
    (((visitListeners root lvc).get? ENVOY_HTTPS_LISTENER).isSome = true ↔
        root.secureVirtualHosts ≠ []) ∧
      (root.anySecureVirtualHost = false →
        (visitListeners root lvc).get? ENVOY_HTTPS_LISTENER = none) := by
  rw [visitListeners_get?_https]
  refine ⟨?_, fun hany => ?_⟩
  · by_cases hs : root.secureVirtualHosts = [] <;> simp [hs]
  · rw [if_pos (secureVirtualHosts_eq_nil_of_any root hany)]

theorem visitListeners_https_entry_iff_witness :
    (dag.Vertex.other [.virtualHost { Name := "a.example.com" } []]).anySecureVirtualHost
        = false ∧
      (visitListeners (.other [.virtualHost { Name := "a.example.com" } []])
        sample.lvc).get? ENVOY_HTTPS_LISTENER = none :=
  ⟨by decide,
    (visitListeners_https_entry_iff (.other [.virtualHost { Name := "a.example.com" } []])
      sample.lvc).2 (by decide)⟩

/-- C6: the mapping returned by `visitListeners` has an `ingress_http` entry
exactly when the traversal encountered at least one plaintext virtual host; a
graph with a TLS-terminated virtual host and no plaintext virtual host at all
has no `ingress_http` entry. -/
theorem visitListeners_http_entry_iff (root : dag.Vertex) (lvc : ListenerVisitorConfig) :
    (((visitListeners root lvc).get? ENVOY_HTTP_LISTENER).isSome = true ↔
        root.virtualHosts ≠ []) ∧
      (root.anySecureVirtualHost = true → root.anyVirtualHost = false →
        (visitListeners root lvc).get? ENVOY_HTTP_LISTENER = none) := by
  rw [visitListeners_get?_http]
  refine ⟨?_, fun _ hany => ?_⟩
  · by_cases hs : root.virtualHosts = [] <;> simp [hs]
  · rw [if_pos (virtualHosts_eq_nil_of_any root hany)]

theorem visitListeners_http_entry_iff_witness :
    (sample.graph₃.anySecureVirtualHost = true ∧ sample.graph₃.anyVirtualHost = false) ∧
      (visitListeners sample.graph₃ sample.lvc).get? ENVOY_HTTP_LISTENER = none :=
  ⟨⟨by decide, by decide⟩,
    (visitListeners_http_entry_iff sample.graph₃ sample.lvc).2 (by decide) (by decide)⟩

/-! ## The listener cache -/

namespace GoMap

variable {β : Type}

theorem mem_of_get? (m : GoMap β) (k : String) (v : β) (h : m.get? k = some v) :
    (k, v) ∈ m := by
  induction m with
  | nil => simp [get?_nil] at h
  | cons kv m ih =>
    obtain ⟨k', v'⟩ := kv
    rw [get?_cons] at h
    by_cases hk : k = k'
    · rw [if_pos hk] at h
      rw [hk, Option.some.inj h]
      exact List.mem_cons_self _ _
    · rw [if_neg hk] at h
      exact List.mem_cons_of_mem _ (ih h)

end GoMap

theorem foldl_append_values (m : GoMap Listener) (acc : List Listener) :
    m.foldl (fun values kv => values ++ [kv.2]) acc = acc ++ m.map Prod.snd := by
  induction m generalizing acc with
  | nil => simp
  | cons kv m ih => simp [List.foldl_cons, ih]

theorem foldl_query (c : ListenerCache) (names : List String) (acc : List Listener) :
    names.foldl (fun values n =>
      match c.values.get? n with
      | some v => values ++ [v]
      | none =>
        match c.staticValues.get? n with
        | some v => values ++ [v]
        | none => values) acc =
      acc ++ names.filterMap c.find? := by
  induction names generalizing acc with
  | nil => simp
  | cons n names ih =>
    rw [List.foldl_cons, ih, List.filterMap_cons]
    unfold ListenerCache.find?
    cases hd : c.values.get? n with
    | some v => simp
    | none =>
      cases hs : c.staticValues.get? n with
      | some v => simp
      | none => simp

theorem Contents_eq (c : ListenerCache) :
    c.Contents =
      sort.Stable (fun a b => stringLess a.Name b.Name)
        (c.values.map Prod.snd ++ c.staticValues.map Prod.snd) := by
  simp only [ListenerCache.Contents, foldl_append_values, List.nil_append]
  rfl

theorem Query_eq (c : ListenerCache) (names : List String) :
    c.Query names =
      sort.Stable (fun a b => stringLess a.Name b.Name) (names.filterMap c.find?) := by
  simp only [ListenerCache.Query, foldl_query, List.nil_append]
  rfl

theorem filterMap_filter_ne (f : String → Option Listener) (n : String) (hn : f n = none)
    (names : List String) :
    (names.filter (fun m => m ≠ n)).filterMap f = names.filterMap f := by
  induction names with
  | nil => rfl
  | cons m names ih =>
    by_cases hm : m = n
    · subst hm
      simp only [ne_eq, decide_not] at ih
      simp [List.filter_cons, List.filterMap_cons, hn, ih]
    · simp only [ne_eq, decide_not] at ih
      simp [List.filter_cons, List.filterMap_cons, hm, ih]

/-- C7: `Query` is total and returns exactly the resources found for the
requested names, the dynamic map being looked up first and then the static
one; a name in neither map contributes no entry.  On a cache in which, of
"a", "b" and "nonexistent", only "a" has an entry, `Query ["a", "b",
"nonexistent"]` is exactly the resource stored under "a". -/
theorem Query_returns_present (c : ListenerCache) (names : List String) (a : Listener) :
    (c.Query names).Perm (names.filterMap c.find?) ∧
      (∀ n ∈ names, c.values.get? n = none → c.staticValues.get? n = none →
        c.Query names = c.Query (names.filter (fun m => m ≠ n))) ∧
      (c.find? "a" = some a → c.find? "b" = none → c.find? "nonexistent" = none →
        c.Query ["a", "b", "nonexistent"] = [a]) := by
  refine ⟨?_, ?_, ?_⟩
  · rw [Query_eq]
    exact sort.perm_Stable _ _
  · intro n _ hd hs
    rw [Query_eq, Query_eq, filterMap_filter_ne c.find? n (by simp [ListenerCache.find?, hd, hs])]
  · intro ha hb hn
    simp [Query_eq, ha, hb, hn, sort.Stable, sort.insert]

theorem Query_returns_present_witness :
    (("nonexistent" ∈ ["a", "b", "nonexistent"] ∧
        sample.cache₆.values.get? "nonexistent" = none ∧
        sample.cache₆.staticValues.get? "nonexistent" = none) ∧
      sample.cache₆.Query ["a", "b", "nonexistent"] =
        sample.cache₆.Query (["a", "b", "nonexistent"].filter (fun m => m ≠ "nonexistent"))) ∧
    ((sample.cache₆.find? "a" = some (sample.listener "a" 8080) ∧
        sample.cache₆.find? "b" = none ∧ sample.cache₆.find? "nonexistent" = none) ∧
      sample.cache₆.Query ["a", "b", "nonexistent"] = [sample.listener "a" 8080]) :=
  ⟨⟨⟨by decide, by decide, by decide⟩,
      (Query_returns_present sample.cache₆ ["a", "b", "nonexistent"]
        (sample.listener "a" 8080)).2.1 "nonexistent" (by decide) (by decide) (by decide)⟩,
    ⟨⟨by decide, by decide, by decide⟩,
      (Query_returns_present sample.cache₆ ["a", "b", "nonexistent"]
        (sample.listener "a" 8080)).2.2 (by decide) (by decide) (by decide)⟩⟩

/-- Under a cache whose keys are the names of the listeners stored under
them, a resource found for a name carries that name. -/
theorem find?_name (c : ListenerCache)
    (hv : ∀ kv ∈ c.values, kv.1 = kv.2.Name)
    (hs : ∀ kv ∈ c.staticValues, kv.1 = kv.2.Name)
    (n : String) (a : Listener) (h : c.find? n = some a) : a.Name = n := by
  unfold ListenerCache.find? at h
  cases hd : c.values.get? n with
  | some v =>
    rw [hd] at h
    have := Option.some.inj h
    subst this
    exact (hv _ (GoMap.mem_of_get? _ _ _ hd)).symm
  | none =>
    rw [hd] at h
    exact (hs _ (GoMap.mem_of_get? _ _ _ h)).symm

/-- C8: on a cache in which each map key equals the Name of the listener
stored under it, `Query` returns the same sequence for two name lists that are
permutations of each other, and that sequence is in non-decreasing order of
listener Name. -/
theorem Query_perm_invariant_sorted (c : ListenerCache) (names₁ names₂ : List String)
    (hv : ∀ kv ∈ c.values, kv.1 = kv.2.Name)
    (hs : ∀ kv ∈ c.staticValues, kv.1 = kv.2.Name)
    (hperm : names₁.Perm names₂) :
    c.Query names₁ = c.Query names₂ ∧
      (c.Query names₁).Pairwise (fun a b => a.Name ≤ b.Name) := by
  rw [Query_eq, Query_eq]
  refine ⟨?_, sort.pairwise_Stable Listener.Name _⟩
  refine sort.Stable_eq_of_perm Listener.Name (hperm.filterMap _) ?_
  intro a ha b hb hab
  rw [List.mem_filterMap] at ha hb
  obtain ⟨n, -, hn⟩ := ha
  obtain ⟨m, -, hm⟩ := hb
  have hna := find?_name c hv hs n a hn
  have hmb := find?_name c hv hs m b hm
  rw [hna, hmb] at hab
  rw [hab] at hn
  exact Option.some.inj (hn.symm.trans hm)

theorem Query_perm_invariant_sorted_witness :
    ((∀ kv ∈ sample.cache₁.values, kv.1 = kv.2.Name) ∧
      (∀ kv ∈ sample.cache₁.staticValues, kv.1 = kv.2.Name) ∧
      ["y", "stats", "x"].Perm ["x", "y", "stats"]) ∧
    (sample.cache₁.Query ["y", "stats", "x"] = sample.cache₁.Query ["x", "y", "stats"] ∧
      (sample.cache₁.Query ["y", "stats", "x"]).Pairwise (fun a b => a.Name ≤ b.Name)) :=
  ⟨⟨by decide, by decide, by decide⟩,
    Query_perm_invariant_sorted sample.cache₁ ["y", "stats", "x"] ["x", "y", "stats"]
      (by decide) (by decide) (by decide)⟩

/-- C9: for a name that is a key of both the dynamic and the static map,
`Query [name]` returns exactly one resource, the dynamic one; the static
resource is what `Query [name]` returns once the name is absent from the
dynamic map. -/
theorem Query_dynamic_first (c : ListenerCache) (name : String) (d s : Listener)
    (hd : c.values.get? name = some d) (hs : c.staticValues.get? name = some s) :
    c.Query [name] = [d] ∧
      ListenerCache.Query { c with values := c.values.delete name } [name] = [s] ∧
      (∀ c' : ListenerCache, c'.staticValues = c.staticValues →
        c'.values.get? name = none → c'.Query [name] = [s]) := by
  refine ⟨?_, ?_, ?_⟩
  · simp [Query_eq, ListenerCache.find?, hd, sort.Stable, sort.insert]
  · simp [Query_eq, ListenerCache.find?, GoMap.get?_delete_self, hs, sort.Stable, sort.insert]
  · intro c' hstat hnone
    simp [Query_eq, ListenerCache.find?, hnone, hstat, hs, sort.Stable, sort.insert]

theorem Query_dynamic_first_witness :
    (sample.cache₃.values.get? "x" = some (sample.listener "x" 8080) ∧
      sample.cache₃.staticValues.get? "x" = some (sample.listener "x" 9000)) ∧
    (sample.cache₃.Query ["x"] = [sample.listener "x" 8080] ∧
      ListenerCache.Query { sample.cache₃ with values := sample.cache₃.values.delete "x" } ["x"]
        = [sample.listener "x" 9000] ∧
      (∀ c' : ListenerCache, c'.staticValues = sample.cache₃.staticValues →
        c'.values.get? "x" = none → c'.Query ["x"] = [sample.listener "x" 9000])) :=
  ⟨⟨by decide, by decide⟩,
    Query_dynamic_first sample.cache₃ "x" (sample.listener "x" 8080) (sample.listener "x" 9000)
      (by decide) (by decide)⟩

/-- C10, as stated, fails: in `sample.cache₄` the dynamic keys k1, k2 and the
Names of the dynamic listeners are disjoint from the static key and Name, yet
`Contents` is not in strictly increasing order of Name (both dynamic listeners
are named x), and the cache `sample.cache₅`, which holds the same two maps
yielded in another order, has different `Contents`. -/
theorem Contents_strict_order_counterexample :
    (sample.cache₄.values.WF ∧ sample.cache₄.staticValues.WF ∧
      (∀ kv ∈ sample.cache₄.values, ∀ kv' ∈ sample.cache₄.staticValues,
        kv.1 ≠ kv'.1 ∧ kv.2.Name ≠ kv'.2.Name) ∧
      sample.cache₅.values.Perm sample.cache₄.values ∧
      sample.cache₅.staticValues = sample.cache₄.staticValues) ∧
    ¬ sample.cache₄.Contents.Pairwise (fun a b => a.Name < b.Name) ∧
    sample.cache₄.Contents ≠ sample.cache₅.Contents := by
  refine ⟨⟨by decide, by decide, by decide, by decide, by decide⟩, ?_, by decide⟩
  have hc : sample.cache₄.Contents =
      [sample.listener "stats" 8002, sample.listener "x" 8080, sample.listener "x" 8443] := by
    decide
  rw [hc]
  intro h
  have hlt : (sample.listener "x" 8080).Name < (sample.listener "x" 8443).Name := by
    simp only [List.pairwise_cons] at h
    exact h.2.1 _ (List.mem_singleton.2 rfl)
  exact lt_irrefl _ hlt

/-- The Names of the listeners of a cache whose keys are the Names of the
listeners stored under them are pairwise distinct when the static keys differ
from the dynamic ones. -/
theorem names_nodup (c : ListenerCache)
    (hwv : c.values.WF) (hws : c.staticValues.WF)
    (hv : ∀ kv ∈ c.values, kv.1 = kv.2.Name)
    (hs : ∀ kv ∈ c.staticValues, kv.1 = kv.2.Name)
    (hdisj : ∀ kv ∈ c.values, ∀ kv' ∈ c.staticValues, kv.1 ≠ kv'.1) :
    ((c.values.map Prod.snd ++ c.staticValues.map Prod.snd).map Listener.Name).Nodup := by
  have e₁ : (c.values.map Prod.snd).map Listener.Name = c.values.map Prod.fst := by
    rw [List.map_map]
    exact List.map_congr_left (fun kv hkv => (hv kv hkv).symm)
  have e₂ : (c.staticValues.map Prod.snd).map Listener.Name = c.staticValues.map Prod.fst := by
    rw [List.map_map]
    exact List.map_congr_left (fun kv hkv => (hs kv hkv).symm)
  rw [List.map_append, e₁, e₂, List.nodup_append]
  refine ⟨hwv, hws, ?_⟩
  intro k hk hk'
  rw [List.mem_map] at hk hk'
  obtain ⟨kv, hkv, rfl⟩ := hk
  obtain ⟨kv', hkv', he⟩ := hk'
  exact hdisj kv hkv kv' hkv' he.symm

/-- C10, amended: on a cache in which no two listeners, dynamic or static,
have the same Name, `Contents` returns exactly the dynamic resources together
with the static ones, in strictly increasing order of listener Name, and a
cache holding the same two maps yielded in any other order has the same
`Contents`.  The keys of the maps play no part. -/
theorem Contents_sorted_union (c c' : ListenerCache)
    (hnames :
      ((c.values.map Prod.snd ++ c.staticValues.map Prod.snd).map Listener.Name).Nodup)
    (hpv : c'.values.Perm c.values) (hps : c'.staticValues.Perm c.staticValues) :
    c.Contents.Perm (c.values.map Prod.snd ++ c.staticValues.map Prod.snd) ∧
      c.Contents.Pairwise (fun a b => a.Name < b.Name) ∧
      c'.Contents = c.Contents := by
  rw [Contents_eq, Contents_eq]
  refine ⟨sort.perm_Stable _ _, ?_, ?_⟩
  · have hle := sort.pairwise_Stable Listener.Name
      (c.values.map Prod.snd ++ c.staticValues.map Prod.snd)
    have hne : (sort.Stable (fun a b => stringLess a.Name b.Name)
        (c.values.map Prod.snd ++ c.staticValues.map Prod.snd)).Pairwise
        (fun a b => a.Name ≠ b.Name) := by
      have := (((sort.perm_Stable (fun a b : Listener => stringLess a.Name b.Name)
        (c.values.map Prod.snd ++ c.staticValues.map Prod.snd)).map
          Listener.Name).nodup_iff).2 hnames
      exact List.pairwise_map.1 this
    exact (hle.and hne).imp (fun h => lt_of_le_of_ne h.1 h.2)
  · refine (sort.Stable_eq_of_perm Listener.Name
      (((hpv.map Prod.snd).append (hps.map Prod.snd)).symm) ?_).symm
    intro a ha b hb hab
    exact List.inj_on_of_nodup_map hnames ha hb hab

theorem Contents_sorted_union_witness :
    (((sample.cache₈.values.map Prod.snd ++ sample.cache₈.staticValues.map Prod.snd).map
          Listener.Name).Nodup ∧
      sample.cache₉.values.Perm sample.cache₈.values ∧
      sample.cache₉.staticValues.Perm sample.cache₈.staticValues) ∧
    (sample.cache₈.Contents.Perm
        (sample.cache₈.values.map Prod.snd ++ sample.cache₈.staticValues.map Prod.snd) ∧
      sample.cache₈.Contents.Pairwise (fun a b => a.Name < b.Name) ∧
      sample.cache₉.Contents = sample.cache₈.Contents) ∧
    (sample.cache₈.Contents =
        [sample.listener "stats" 8002, sample.listener "x" 8080, sample.listener "y" 8443] ∧
      sample.cache₁.Contents =
        [sample.listener "stats" 8002, sample.listener "x" 8080, sample.listener "y" 8443] ∧
      sample.cache₂.Contents =
        [sample.listener "stats" 8002, sample.listener "x" 8080, sample.listener "y" 8443]) :=
  ⟨⟨by decide, by decide, by decide⟩,
    Contents_sorted_union sample.cache₈ sample.cache₉ (by decide) (by decide) (by decide),
    by decide, by decide, by decide⟩

/-! ## Update and NewListenerCache -/

theorem Update_values (c : ListenerCache) (v : GoMap Listener) : (c.Update v).values = v := rfl

theorem Update_staticValues (c : ListenerCache) (v : GoMap Listener) :
    (c.Update v).staticValues = c.staticValues := rfl

/-- C11: after `Update v` the dynamic map is exactly `v`: `Contents` returns
the values of `v` plus the static resources and does not depend on the
previous dynamic map, and `Query` of a name that is neither in `v` nor in the
static map (so at most in the previous dynamic map) returns nothing. -/
theorem Update_replaces (c : ListenerCache) (v : GoMap Listener) :
    (c.Update v).values = v ∧
      (c.Update v).staticValues = c.staticValues ∧
      (c.Update v).Contents.Perm (v.map Prod.snd ++ c.staticValues.map Prod.snd) ∧
      (∀ c' : ListenerCache, c'.staticValues = c.staticValues →
        (c'.Update v).Contents = (c.Update v).Contents) ∧
      (∀ (n : String) (old : Listener), c.values.get? n = some old → v.get? n = none →
        c.staticValues.get? n = none → (c.Update v).Query [n] = []) := by
  refine ⟨rfl, rfl, ?_, ?_, ?_⟩
  · rw [Contents_eq]
    exact sort.perm_Stable _ _
  · intro c' hc'
    rw [Contents_eq, Contents_eq, Update_values, Update_values, Update_staticValues,
      Update_staticValues, hc']
  · intro n old _ hv hs
    rw [Query_eq]
    simp [ListenerCache.find?, Update_values, Update_staticValues, hv, hs, sort.Stable]

theorem Update_replaces_witness :
    (sample.cache₁.staticValues = sample.cache₆.staticValues ∧
      (sample.cache₁.Update sample.cache₆.values).Contents =
        (sample.cache₆.Update sample.cache₆.values).Contents) ∧
    ((sample.cache₁.values.get? "x" = some (sample.listener "x" 8080) ∧
        sample.cache₆.values.get? "x" = none ∧ sample.cache₁.staticValues.get? "x" = none) ∧
      (sample.cache₁.Update sample.cache₆.values).Query ["x"] = []) :=
  ⟨⟨by decide,
      (Update_replaces sample.cache₆ sample.cache₆.values).2.2.2.1 sample.cache₁ (by decide)⟩,
    ⟨⟨by decide, by decide, by decide⟩,
      (Update_replaces sample.cache₁ sample.cache₆.values).2.2.2.2 "x"
        (sample.listener "x" 8080) (by decide) (by decide) (by decide)⟩⟩

theorem foldl_Update_staticValues (vs : List (GoMap Listener)) (c : ListenerCache) :
    (vs.foldl ListenerCache.Update c).staticValues = c.staticValues := by
  induction vs generalizing c with
  | nil => rfl
  | cons v vs ih => rw [List.foldl_cons, ih, Update_staticValues]

/-- C12: a cache built by `NewListenerCache` keeps its static map through
every finite sequence of `Update` calls, and `Contents` then still contains the
stats listener; on the fresh cache `Contents` is exactly the stats listener. -/
theorem NewListenerCache_static_kept (StatsListener : String → Int → Listener)
    (address : String) (port : Int) (vs : List (GoMap Listener)) :
    (vs.foldl ListenerCache.Update (NewListenerCache StatsListener address port)).staticValues =
        (NewListenerCache StatsListener address port).staticValues ∧
      (NewListenerCache StatsListener address port).staticValues =
        [((StatsListener address port).Name, StatsListener address port)] ∧
      StatsListener address port ∈
        (vs.foldl ListenerCache.Update (NewListenerCache StatsListener address port)).Contents ∧
      (NewListenerCache StatsListener address port).Contents = [StatsListener address port] := by
  refine ⟨foldl_Update_staticValues vs _, rfl, ?_, ?_⟩
  · rw [Contents_eq, sort.mem_Stable, foldl_Update_staticValues]
    simp [NewListenerCache]
  · rw [Contents_eq]
    simp [NewListenerCache, sort.Stable, sort.insert]

/-! ## The accessors of ListenerVisitorConfig -/

/-- C13: `requestTimeout` is 0 when the configured RequestTimeout is negative
and the configured value otherwise; it is never negative. -/
theorem requestTimeout_clamped (lvc : ListenerVisitorConfig) :
    (lvc.RequestTimeout < 0 → lvc.requestTimeout = 0) ∧
      (0 ≤ lvc.RequestTimeout → lvc.requestTimeout = lvc.RequestTimeout) ∧
      0 ≤ lvc.requestTimeout := by
  unfold ListenerVisitorConfig.requestTimeout
  refine ⟨fun h => if_pos h, fun h => if_neg (not_lt.2 h), ?_⟩
  split
  · exact le_refl 0
  · next h => exact not_lt.1 h

theorem requestTimeout_clamped_witness :
    (sample.lvc₂.RequestTimeout < 0 ∧ sample.lvc₂.requestTimeout = 0) ∧
      (0 ≤ sample.lvc₁.RequestTimeout ∧
        sample.lvc₁.requestTimeout = sample.lvc₁.RequestTimeout) :=
  ⟨⟨by decide, (requestTimeout_clamped sample.lvc₂).1 (by decide)⟩,
    ⟨by decide, (requestTimeout_clamped sample.lvc₁).2.1 (by decide)⟩⟩

/-- C14: `minProtoVersion` is TLSv1_1 when the configured
MinimumProtocolVersion is at or below TLSv1_1 (among them the unset value
TLS_AUTO and TLSv1_0) and the configured value when it is above TLSv1_1. -/
theorem minProtoVersion_baseline (lvc : ListenerVisitorConfig) :
    (lvc.MinimumProtocolVersion ≤ TlsParameters_TLSv1_1 →
        lvc.minProtoVersion = TlsParameters_TLSv1_1) ∧
      (TlsParameters_TLSv1_1 < lvc.MinimumProtocolVersion →
        lvc.minProtoVersion = lvc.MinimumProtocolVersion) ∧
      (lvc.MinimumProtocolVersion = TlsParameters_TLS_AUTO →
        lvc.minProtoVersion = TlsParameters_TLSv1_1) ∧
      (lvc.MinimumProtocolVersion = TlsParameters_TLSv1_0 →
        lvc.minProtoVersion = TlsParameters_TLSv1_1) := by
  unfold ListenerVisitorConfig.minProtoVersion
  refine ⟨fun h => if_neg (not_lt.2 h), fun h => if_pos h, fun h => ?_, fun h => ?_⟩
  · rw [h]; rfl
  · rw [h]; rfl

theorem minProtoVersion_baseline_witness :
    ((sample.lvc.MinimumProtocolVersion ≤ TlsParameters_TLSv1_1 ∧
        sample.lvc.minProtoVersion = TlsParameters_TLSv1_1) ∧
      (TlsParameters_TLSv1_1 < sample.lvc₁.MinimumProtocolVersion ∧
        sample.lvc₁.minProtoVersion = sample.lvc₁.MinimumProtocolVersion)) ∧
    ((sample.lvc.MinimumProtocolVersion = TlsParameters_TLS_AUTO ∧
        sample.lvc.minProtoVersion = TlsParameters_TLSv1_1) ∧
      (({ sample.lvc with MinimumProtocolVersion := 1 } :
          ListenerVisitorConfig).MinimumProtocolVersion = TlsParameters_TLSv1_0 ∧
        ({ sample.lvc with MinimumProtocolVersion := 1 } :
          ListenerVisitorConfig).minProtoVersion = TlsParameters_TLSv1_1)) :=
  ⟨⟨⟨by decide, (minProtoVersion_baseline sample.lvc).1 (by decide)⟩,
      ⟨by decide, (minProtoVersion_baseline sample.lvc₁).2.1 (by decide)⟩⟩,
    ⟨⟨by decide, (minProtoVersion_baseline sample.lvc).2.2.1 (by decide)⟩,
      ⟨by decide,
        (minProtoVersion_baseline { sample.lvc with MinimumProtocolVersion := 1 }).2.2.2
          (by decide)⟩⟩⟩

/-- C15: each of httpAddress, httpPort, httpAccessLog, httpsAddress, httpsPort
and httpsAccessLog returns the configured field when it is not the zero value
and otherwise its default: "0.0.0.0", 8080, "/dev/stdout", "0.0.0.0", 8443 and
"/dev/stdout". -/
theorem accessors_default (lvc : ListenerVisitorConfig) :
    ((lvc.HTTPAddress ≠ "" → lvc.httpAddress = lvc.HTTPAddress) ∧
      (lvc.HTTPPort ≠ 0 → lvc.httpPort = lvc.HTTPPort) ∧
      (lvc.HTTPAccessLog ≠ "" → lvc.httpAccessLog = lvc.HTTPAccessLog) ∧
      (lvc.HTTPSAddress ≠ "" → lvc.httpsAddress = lvc.HTTPSAddress) ∧
      (lvc.HTTPSPort ≠ 0 → lvc.httpsPort = lvc.HTTPSPort) ∧
      (lvc.HTTPSAccessLog ≠ "" → lvc.httpsAccessLog = lvc.HTTPSAccessLog)) ∧
    ((lvc.HTTPAddress = "" → lvc.httpAddress = "0.0.0.0") ∧
      (lvc.HTTPPort = 0 → lvc.httpPort = 8080) ∧
      (lvc.HTTPAccessLog = "" → lvc.httpAccessLog = "/dev/stdout") ∧
      (lvc.HTTPSAddress = "" → lvc.httpsAddress = "0.0.0.0") ∧
      (lvc.HTTPSPort = 0 → lvc.httpsPort = 8443) ∧
      (lvc.HTTPSAccessLog = "" → lvc.httpsAccessLog = "/dev/stdout")) := by
  unfold ListenerVisitorConfig.httpAddress ListenerVisitorConfig.httpPort
    ListenerVisitorConfig.httpAccessLog ListenerVisitorConfig.httpsAddress
    ListenerVisitorConfig.httpsPort ListenerVisitorConfig.httpsAccessLog
  refine ⟨⟨fun h => if_pos h, fun h => if_pos h, fun h => if_pos h, fun h => if_pos h,
      fun h => if_pos h, fun h => if_pos h⟩,
    ⟨fun h => ?_, fun h => ?_, fun h => ?_, fun h => ?_, fun h => ?_, fun h => ?_⟩⟩
  all_goals rw [if_neg (not_not.2 h)]; rfl

theorem accessors_default_witness :
    (((sample.lvc₁.HTTPAddress ≠ "" ∧ sample.lvc₁.httpAddress = "127.0.0.1") ∧
      (sample.lvc₁.HTTPPort ≠ 0 ∧ sample.lvc₁.httpPort = 9080) ∧
      (sample.lvc₁.HTTPAccessLog ≠ "" ∧ sample.lvc₁.httpAccessLog = "/tmp/http.log") ∧
      (sample.lvc₁.HTTPSAddress ≠ "" ∧ sample.lvc₁.httpsAddress = "127.0.0.2") ∧
      (sample.lvc₁.HTTPSPort ≠ 0 ∧ sample.lvc₁.httpsPort = 9443) ∧
      (sample.lvc₁.HTTPSAccessLog ≠ "" ∧ sample.lvc₁.httpsAccessLog = "/tmp/https.log")) ∧
    ((sample.lvc.HTTPAddress = "" ∧ sample.lvc.httpAddress = "0.0.0.0") ∧
      (sample.lvc.HTTPPort = 0 ∧ sample.lvc.httpPort = 8080) ∧
      (sample.lvc.HTTPAccessLog = "" ∧ sample.lvc.httpAccessLog = "/dev/stdout") ∧
      (sample.lvc.HTTPSAddress = "" ∧ sample.lvc.httpsAddress = "0.0.0.0") ∧
      (sample.lvc.HTTPSPort = 0 ∧ sample.lvc.httpsPort = 8443) ∧
      (sample.lvc.HTTPSAccessLog = "" ∧ sample.lvc.httpsAccessLog = "/dev/stdout"))) :=
  ⟨⟨⟨by decide, (accessors_default sample.lvc₁).1.1 (by decide)⟩,
      ⟨by decide, (accessors_default sample.lvc₁).1.2.1 (by decide)⟩,
      ⟨by decide, (accessors_default sample.lvc₁).1.2.2.1 (by decide)⟩,
      ⟨by decide, (accessors_default sample.lvc₁).1.2.2.2.1 (by decide)⟩,
      ⟨by decide, (accessors_default sample.lvc₁).1.2.2.2.2.1 (by decide)⟩,
      ⟨by decide, (accessors_default sample.lvc₁).1.2.2.2.2.2 (by decide)⟩⟩,
    ⟨⟨by decide, (accessors_default sample.lvc).2.1 (by decide)⟩,
      ⟨by decide, (accessors_default sample.lvc).2.2.1 (by decide)⟩,
      ⟨by decide, (accessors_default sample.lvc).2.2.2.1 (by decide)⟩,
      ⟨by decide, (accessors_default sample.lvc).2.2.2.2.1 (by decide)⟩,
      ⟨by decide, (accessors_default sample.lvc).2.2.2.2.2.1 (by decide)⟩,
      ⟨by decide, (accessors_default sample.lvc).2.2.2.2.2.2 (by decide)⟩⟩⟩

/-! ## The polling loop of shutdownReadyHandler -/

/-- A poll that does not end the loop hands over to the `select` statement. -/
theorem loop_cons_of_not_ready (s : shutdownmanagerContext) (r : pollRound)
    (rounds : List pollRound)
    (h : ¬ ((getOpenConnections s.adminPort r.get).2 = none ∧
      (getOpenConnections s.adminPort r.get).1 ≤ s.minOpenConnections)) :
    shutdownReadyHandler.loop s (r :: rounds) =
      match r.select with
      | .checkInterval =>
        (shutdownReadyHandler.loop s rounds).map (fun p => (p.1 + 1, p.2))
      | .maxDrainTimeout => some (0, .maxDrainTimeout)
      | .ctxDone => some (0, .ctxDone) := by
  rw [shutdownReadyHandler.loop]
  rcases hg : getOpenConnections s.adminPort r.get with ⟨n, _ | e⟩
  · rw [hg] at h
    have hn : ¬ n ≤ s.minOpenConnections := fun hn => h ⟨rfl, hn⟩
    simp only [hn, if_false]
  · simp only

/-- A successful poll at or below the floor ends the loop. -/
theorem loop_cons_of_ready (s : shutdownmanagerContext) (r : pollRound)
    (rounds : List pollRound)
    (herr : (getOpenConnections s.adminPort r.get).2 = none)
    (hle : (getOpenConnections s.adminPort r.get).1 ≤ s.minOpenConnections) :
    shutdownReadyHandler.loop s (r :: rounds) = some (0, .minOpenConnections) := by
  rw [shutdownReadyHandler.loop]
  rcases hg : getOpenConnections s.adminPort r.get with ⟨n, _ | e⟩
  · rw [hg] at hle
    simp only [hle, if_true]
  · rw [hg] at herr
    exact absurd herr (by simp)

/-- C16: when every earlier poll was followed by the interval tick (no
cancellation, drain time not reached) and either failed or read more than
minOpenConnections, the loop returns at the first poll that succeeded with a
count at or below minOpenConnections, whatever comes after it; with the counts
12, 7, 3, 0 and the floor 5 it returns at the poll that reads 3. -/
theorem loop_returns_at_first_ready (s : shutdownmanagerContext)
    (earlier : List pollRound) (r : pollRound) (later : List pollRound)
    (hearlier : ∀ r' ∈ earlier, r'.select = .checkInterval ∧
      ¬ ((getOpenConnections s.adminPort r'.get).2 = none ∧
        (getOpenConnections s.adminPort r'.get).1 ≤ s.minOpenConnections))
    (herr : (getOpenConnections s.adminPort r.get).2 = none)
    (hle : (getOpenConnections s.adminPort r.get).1 ≤ s.minOpenConnections) :
    shutdownReadyHandler.loop s (earlier ++ r :: later) =
        some (earlier.length, .minOpenConnections) ∧
      shutdownReadyHandler.loop sample.manager
        [sample.round 12, sample.round 7, sample.round 3, sample.round 0] =
        some (2, .minOpenConnections) := by
  refine ⟨?_, by decide⟩
  induction earlier with
  | nil => exact loop_cons_of_ready s r later herr hle
  | cons r' earlier ih =>
    have h' := hearlier r' (List.mem_cons_self _ _)
    rw [List.cons_append, loop_cons_of_not_ready s r' _ h'.2, h'.1]
    simp only
    rw [ih (fun x hx => hearlier x (List.mem_cons_of_mem _ hx))]
    rfl

theorem loop_returns_at_first_ready_witness :
    ((∀ r' ∈ [sample.round 12, sample.failedRound, sample.round 7],
        r'.select = .checkInterval ∧
        ¬ ((getOpenConnections sample.manager.adminPort r'.get).2 = none ∧
          (getOpenConnections sample.manager.adminPort r'.get).1 ≤
            sample.manager.minOpenConnections)) ∧
      (getOpenConnections sample.manager.adminPort (sample.round 3).get).2 = none ∧
      (getOpenConnections sample.manager.adminPort (sample.round 3).get).1 ≤
        sample.manager.minOpenConnections) ∧
    (shutdownReadyHandler.loop sample.manager
        ([sample.round 12, sample.failedRound, sample.round 7] ++
          sample.round 3 :: [sample.round 0]) =
        some ([sample.round 12, sample.failedRound, sample.round 7].length,
          .minOpenConnections) ∧
      shutdownReadyHandler.loop sample.manager
        [sample.round 12, sample.round 7, sample.round 3, sample.round 0] =
        some (2, .minOpenConnections)) :=
  ⟨⟨by decide, by decide, by decide⟩,
    loop_returns_at_first_ready sample.manager
      [sample.round 12, sample.failedRound, sample.round 7] (sample.round 3)
      [sample.round 0] (by decide) (by decide) (by decide)⟩

/-- The count that accompanies an error of `parseOpenConnections` is -1. -/
theorem parseOpenConnections_error_count (stats : Option Reader) (e : error)
    (h : (parseOpenConnections stats).2 = some e) : (parseOpenConnections stats).1 = -1 := by
  unfold parseOpenConnections at h ⊢
  cases stats with
  | none => rfl
  | some stats =>
    simp only at h ⊢
    cases hp : stats.TextToMetricFamilies with
    | error err => rfl
    | ok metricFamilies =>
      rw [hp] at h
      simp only at h ⊢
      cases hf : metricFamilies.get? prometheusStat with
      | none => rfl
      | some family =>
        rw [hf] at h
        simp at h

/-- The count that accompanies an error of `getOpenConnections` is -1. -/
theorem getOpenConnections_error_count (adminPort : Int) (get : Except String Response)
    (e : error) (h : (getOpenConnections adminPort get).2 = some e) :
    (getOpenConnections adminPort get).1 = -1 := by
  unfold getOpenConnections at h ⊢
  cases get with
  | error err => rfl
  | ok resp =>
    simp only at h ⊢
    by_cases hs : resp.StatusCode ≠ StatusOK
    · rw [if_pos hs]
    · rw [if_neg hs] at h ⊢
      exact parseOpenConnections_error_count _ e h

/-- A return at a later poll is a return of the loop run on the later rounds. -/
theorem loop_cons_succ (s : shutdownmanagerContext) (r : pollRound) (rounds : List pollRound)
    (k : Nat) (x : loopReturn)
    (h : shutdownReadyHandler.loop s (r :: rounds) = some (k + 1, x)) :
    shutdownReadyHandler.loop s rounds = some (k, x) := by
  by_cases hr : (getOpenConnections s.adminPort r.get).2 = none ∧
      (getOpenConnections s.adminPort r.get).1 ≤ s.minOpenConnections
  · rw [loop_cons_of_ready s r rounds hr.1 hr.2] at h
    simp at h
  · rw [loop_cons_of_not_ready s r rounds hr] at h
    cases hsel : r.select with
    | checkInterval =>
      rw [hsel] at h
      simp only [Option.map_eq_some'] at h
      obtain ⟨⟨i, y⟩, hl, hp⟩ := h
      simp only [Prod.mk.injEq, add_left_inj] at hp
      rw [hl, hp.1, hp.2]
    | maxDrainTimeout => rw [hsel] at h; simp at h
    | ctxDone => rw [hsel] at h; simp at h

/-- C17: a poll at which `getOpenConnections` returns an error comes with the
count -1 and never makes the loop return, whatever minOpenConnections is: the
loop does not return "min number of open connections found" at that poll, and
from that poll it goes on with the `select` statement (next interval, drain
timeout or cancellation). -/
theorem loop_keeps_waiting_on_error (s : shutdownmanagerContext)
    (earlier : List pollRound) (r : pollRound) (later : List pollRound) (e : error)
    (herr : (getOpenConnections s.adminPort r.get).2 = some e) :
    (getOpenConnections s.adminPort r.get).1 = -1 ∧
      shutdownReadyHandler.loop s (earlier ++ r :: later) ≠
        some (earlier.length, .minOpenConnections) ∧
      shutdownReadyHandler.loop s (r :: later) =
        (match r.select with
        | .checkInterval =>
          (shutdownReadyHandler.loop s later).map (fun p => (p.1 + 1, p.2))
        | .maxDrainTimeout => some (0, .maxDrainTimeout)
        | .ctxDone => some (0, .ctxDone)) := by
  have hnot : ¬ ((getOpenConnections s.adminPort r.get).2 = none ∧
      (getOpenConnections s.adminPort r.get).1 ≤ s.minOpenConnections) := by
    rw [herr]; simp
  have hhead := loop_cons_of_not_ready s r later hnot
  refine ⟨getOpenConnections_error_count _ _ e herr, ?_, hhead⟩
  induction earlier with
  | nil =>
    rw [List.nil_append, hhead]
    cases r.select <;> simp
  | cons r' earlier ih =>
    intro h
    exact ih (loop_cons_succ s r' _ _ _ h)

theorem loop_keeps_waiting_on_error_witness :
    (getOpenConnections sample.manager.adminPort sample.failedRound.get).2 =
        some (.getFailed "connection refused") ∧
    ((getOpenConnections sample.manager.adminPort sample.failedRound.get).1 = -1 ∧
      shutdownReadyHandler.loop sample.manager
          ([sample.round 12] ++ sample.failedRound :: [sample.round 3]) ≠
        some ([sample.round 12].length, .minOpenConnections) ∧
      shutdownReadyHandler.loop sample.manager (sample.failedRound :: [sample.round 3]) =
        (match sample.failedRound.select with
        | .checkInterval =>
          (shutdownReadyHandler.loop sample.manager [sample.round 3]).map
            (fun p => (p.1 + 1, p.2))
        | .maxDrainTimeout => some (0, .maxDrainTimeout)
        | .ctxDone => some (0, .ctxDone))) :=
  ⟨by decide,
    loop_keeps_waiting_on_error sample.manager [sample.round 12] sample.failedRound
      [sample.round 3] (.getFailed "connection refused") (by decide)⟩

/-! ## parseOpenConnections -/

theorem goInt_goInt (x : Int) : goInt (goInt x) = goInt x := by
  unfold goInt
  omega

theorem goInt_goInt_add (a b : Int) : goInt (goInt a + b) = goInt (a + b) := by
  unfold goInt
  omega

/-- A value in the range of a Go `int` is not changed by the wrap-around. -/
theorem goInt_of_range (x : Int) (hlo : -9223372036854775808 ≤ x)
    (hhi : x < 9223372036854775808) : goInt x = x := by
  unfold goInt
  omega

/-- The innermost loop adds the gauge, as a Go `int`, when the label value is
in the allow-list. -/
theorem foldl_prometheusLabels (value : String) (g oc : Int) (hoc : goInt oc = oc) :
    prometheusLabels.foldl (fun openConnections item =>
      if item = value then goInt (openConnections + g) else openConnections) oc =
      goInt (oc + (if value ∈ prometheusLabels then g else 0)) := by
  have hne : ENVOY_HTTP_LISTENER ≠ ENVOY_HTTPS_LISTENER := by decide
  simp only [prometheusLabels, List.foldl_cons, List.foldl_nil, List.mem_cons,
    List.mem_singleton, List.not_mem_nil, or_false]
  by_cases h₁ : value = ENVOY_HTTP_LISTENER
  · subst h₁
    simp [hne, Ne.symm hne]
  · by_cases h₂ : value = ENVOY_HTTPS_LISTENER
    · subst h₂
      simp [hne, Ne.symm hne]
    · have h₁' : ¬ ENVOY_HTTP_LISTENER = value := fun h => h₁ h.symm
      have h₂' : ¬ ENVOY_HTTPS_LISTENER = value := fun h => h₂ h.symm
      simp [h₁, h₂, h₁', h₂', hoc]

/-- The loop over the labels of a metric adds its gauge once per label whose
value is in the allow-list. -/
theorem foldl_labels (labels : List dto.LabelPair) (g oc : Int) (hoc : goInt oc = oc) :
    labels.foldl (fun openConnections l =>
      prometheusLabels.foldl (fun openConnections item =>
        if item = l.Value then goInt (openConnections + g) else openConnections)
        openConnections) oc =
      goInt (oc +
        g * ((labels.countP (fun l => decide (l.Value ∈ prometheusLabels)) : Nat) : Int)) := by
  induction labels generalizing oc with
  | nil => simp [hoc]
  | cons l labels ih =>
    rw [List.foldl_cons, foldl_prometheusLabels _ _ _ hoc, ih _ (goInt_goInt _),
      goInt_goInt_add, List.countP_cons]
    by_cases h : l.Value ∈ prometheusLabels
    · simp only [h, if_true, decide_True, Nat.cast_add, Nat.cast_one]
      congr 1
      ring
    · simp [h]

/-- The loop over the metrics of the family. -/
theorem foldl_metrics (metrics : List dto.Metric) (oc : Int) (hoc : goInt oc = oc) :
    metrics.foldl (fun openConnections m =>
      m.Label.foldl (fun openConnections l =>
        prometheusLabels.foldl (fun openConnections item =>
          if item = l.Value then goInt (openConnections + m.GaugeGetValue)
          else openConnections)
          openConnections) openConnections) oc =
      goInt (oc + (metrics.map (fun m => m.GaugeGetValue *
        ((m.Label.countP (fun l => decide (l.Value ∈ prometheusLabels)) : Nat) : Int))).sum) := by
  induction metrics generalizing oc with
  | nil => simp [hoc]
  | cons m metrics ih =>
    rw [List.foldl_cons, foldl_labels _ _ _ hoc, ih _ (goInt_goInt _), goInt_goInt_add,
      List.map_cons, List.sum_cons]
    congr 1
    ring

/-- What `parseOpenConnections` returns on a parsed payload with the family
envoy_http_downstream_cx_active: no error, and every metric's gauge counted
once per label whose value is in the allow-list, the sum taken as a Go `int`. -/
theorem parseOpenConnections_eq (stats : Reader) (metricFamilies : GoMap dto.MetricFamily)
    (family : dto.MetricFamily)
    (hparse : stats.TextToMetricFamilies = .ok metricFamilies)
    (hfamily : metricFamilies.get? prometheusStat = some family) :
    parseOpenConnections (some stats) =
      (goInt (family.Metric.map (fun m => m.GaugeGetValue *
        ((m.Label.countP (fun l => decide (l.Value ∈ prometheusLabels)) : Nat) : Int))).sum,
        none) := by
  unfold parseOpenConnections
  simp only [hparse, hfamily]
  rw [foldl_metrics _ 0 (by decide), zero_add]

/-- On a payload in which no metric of the family carries two labels with
allow-listed values, `parseOpenConnections` returns the count that the
specification describes, as a Go `int`. -/
theorem parseOpenConnections_of_single_label (stats : Reader)
    (metricFamilies : GoMap dto.MetricFamily) (family : dto.MetricFamily)
    (hparse : stats.TextToMetricFamilies = .ok metricFamilies)
    (hfamily : metricFamilies.get? prometheusStat = some family)
    (hone : ∀ m ∈ family.Metric,
      m.Label.countP (fun l => decide (l.Value ∈ prometheusLabels)) ≤ 1) :
    parseOpenConnections (some stats) = (goInt family.openConnections, none) := by
  rw [parseOpenConnections_eq stats metricFamilies family hparse hfamily]
  unfold dto.MetricFamily.openConnections
  congr 2
  generalize family.Metric = metrics at hone
  induction metrics with
  | nil => rfl
  | cons m metrics ih =>
    have hm := hone m (List.mem_cons_self _ _)
    have ih' := ih (fun x hx => hone x (List.mem_cons_of_mem _ hx))
    rw [List.map_cons, List.sum_cons, ih', List.filter_cons]
    by_cases hl : m.hasListenerLabel = true
    · have hpos : 0 < m.Label.countP (fun l => decide (l.Value ∈ prometheusLabels)) := by
        rw [List.countP_pos_iff]
        simpa [dto.Metric.hasListenerLabel, List.any_eq_true] using hl
      have h1 : m.Label.countP (fun l => decide (l.Value ∈ prometheusLabels)) = 1 := by omega
      rw [if_pos hl, List.map_cons, List.sum_cons, h1]
      simp
    · have h0 : m.Label.countP (fun l => decide (l.Value ∈ prometheusLabels)) = 0 := by
        rw [List.countP_eq_zero]
        simpa [dto.Metric.hasListenerLabel, List.any_eq_true] using hl
      rw [if_neg hl, h0]
      simp

/-- The sum of open connections wraps around like the Go `int` it is kept in:
two gauges of 9000000000000000000 give -446744073709551616, and with that
count the polling loop returns at once. -/
theorem parseOpenConnections_wraps :
    parseOpenConnections (some sample.payload₄) = (-446744073709551616, none) ∧
      shutdownReadyHandler.loop sample.manager
        [{ get := .ok { StatusCode := 200, Status := "200 OK", Body := sample.payload₄ }
           select := .checkInterval },
         sample.round 3] = some (0, .minOpenConnections) := by
  refine ⟨by decide, by decide⟩

/-- C18 (code bug): on the payload `sample.payload₂`, whose family
envoy_http_downstream_cx_active has a single metric with gauge 3 that carries
the two labels "ingress_http" and "ingress_https", `parseOpenConnections`
returns 6 without error, whereas the sum with that metric counted once is 3. -/
theorem parseOpenConnections_counts_per_label :
    sample.payload₂.TextToMetricFamilies =
        .ok [("envoy_http_downstream_cx_active", sample.family₂)] ∧
      parseOpenConnections (some sample.payload₂) = (6, none) ∧
      sample.family₂.openConnections = 3 := by
  refine ⟨rfl, by decide, by decide⟩

/-- C19: on a parsed payload that lacks the family
envoy_http_downstream_cx_active, and on a nil input, `parseOpenConnections`
returns an error together with the count -1, not the count 0 without error. -/
theorem parseOpenConnections_missing_family (stats : Reader)
    (metricFamilies : GoMap dto.MetricFamily)
    (hparse : stats.TextToMetricFamilies = .ok metricFamilies)
    (hmissing : metricFamilies.get? prometheusStat = none) :
    parseOpenConnections (some stats) = (-1, some (.statNotFound prometheusStat)) ∧
      parseOpenConnections none = (-1, some .statsNil) ∧
      parseOpenConnections (some stats) ≠ (0, none) ∧
      parseOpenConnections none ≠ (0, none) := by
  have h : parseOpenConnections (some stats) = (-1, some (.statNotFound prometheusStat)) := by
    unfold parseOpenConnections
    simp only [hparse, hmissing]
  refine ⟨h, rfl, ?_, ?_⟩
  · rw [h]; simp
  · simp [parseOpenConnections]

theorem parseOpenConnections_missing_family_witness :
    (sample.payload₃.TextToMetricFamilies =
        .ok [("envoy_cluster_upstream_cx_active",
          { Name := "envoy_cluster_upstream_cx_active", Metric := [] })] ∧
      GoMap.get? [("envoy_cluster_upstream_cx_active",
          ({ Name := "envoy_cluster_upstream_cx_active", Metric := [] } : dto.MetricFamily))]
        prometheusStat = none) ∧
    (parseOpenConnections (some sample.payload₃) = (-1, some (.statNotFound prometheusStat)) ∧
      parseOpenConnections none = (-1, some .statsNil) ∧
      parseOpenConnections (some sample.payload₃) ≠ (0, none) ∧
      parseOpenConnections none ≠ (0, none)) :=
  ⟨⟨rfl, by decide⟩,
    parseOpenConnections_missing_family sample.payload₃ _ rfl (by decide)⟩

/-! ## The traversal and the graph -/

mutual
theorem mem_secureVirtualHosts_iff (vh : dag.SecureVirtualHost) : ∀ x : dag.Vertex,
    vh ∈ x.secureVirtualHosts ↔ ∃ cs, x.Reaches (.secureVirtualHost vh cs)
  | .virtualHost n cs => by
    simp only [dag.Vertex.secureVirtualHosts, List.not_mem_nil, false_iff]
    rintro ⟨cs', h⟩
    cases h
  | .secureVirtualHost vh' cs => by
    simp only [dag.Vertex.secureVirtualHosts, List.mem_singleton]
    constructor
    · rintro rfl
      exact ⟨cs, .self _⟩
    · rintro ⟨cs', h⟩
      cases h
      rfl
  | .other cs => by
    simp only [dag.Vertex.secureVirtualHosts]
    rw [mem_secureVirtualHostsOf_iff vh cs]
    constructor
    · rintro ⟨c, hc, cs', h⟩
      exact ⟨cs', .child cs c _ hc h⟩
    · rintro ⟨cs', h⟩
      cases h with
      | child _ c _ hc h => exact ⟨c, hc, cs', h⟩
theorem mem_secureVirtualHostsOf_iff (vh : dag.SecureVirtualHost) : ∀ cs : List dag.Vertex,
    vh ∈ dag.Vertex.secureVirtualHostsOf cs ↔
      ∃ c ∈ cs, ∃ cs', c.Reaches (.secureVirtualHost vh cs')
  | [] => by simp [dag.Vertex.secureVirtualHostsOf]
  | c :: cs => by
    simp only [dag.Vertex.secureVirtualHostsOf, List.mem_append, List.mem_cons,
      exists_eq_or_imp]
    rw [mem_secureVirtualHosts_iff vh c, mem_secureVirtualHostsOf_iff vh cs]
end

mutual
theorem mem_virtualHosts_iff (vh : dag.VirtualHost) : ∀ x : dag.Vertex,
    vh ∈ x.virtualHosts ↔ ∃ cs, x.Reaches (.virtualHost vh cs)
  | .virtualHost vh' cs => by
    simp only [dag.Vertex.virtualHosts, List.mem_singleton]
    constructor
    · rintro rfl
      exact ⟨cs, .self _⟩
    · rintro ⟨cs', h⟩
      cases h
      rfl
  | .secureVirtualHost n cs => by
    simp only [dag.Vertex.virtualHosts, List.not_mem_nil, false_iff]
    rintro ⟨cs', h⟩
    cases h
  | .other cs => by
    simp only [dag.Vertex.virtualHosts]
    rw [mem_virtualHostsOf_iff vh cs]
    constructor
    · rintro ⟨c, hc, cs', h⟩
      exact ⟨cs', .child cs c _ hc h⟩
    · rintro ⟨cs', h⟩
      cases h with
      | child _ c _ hc h => exact ⟨c, hc, cs', h⟩
theorem mem_virtualHostsOf_iff (vh : dag.VirtualHost) : ∀ cs : List dag.Vertex,
    vh ∈ dag.Vertex.virtualHostsOf cs ↔ ∃ c ∈ cs, ∃ cs', c.Reaches (.virtualHost vh cs')
  | [] => by simp [dag.Vertex.virtualHostsOf]
  | c :: cs => by
    simp only [dag.Vertex.virtualHostsOf, List.mem_append, List.mem_cons, exists_eq_or_imp]
    rw [mem_virtualHosts_iff vh c, mem_virtualHostsOf_iff vh cs]
end

mutual
theorem secureVirtualHosts_prune : ∀ x : dag.Vertex,
    x.prune.secureVirtualHosts = x.secureVirtualHosts
  | .virtualHost _ _ => rfl
  | .secureVirtualHost _ _ => rfl
  | .other cs => by
    simp only [dag.Vertex.prune, dag.Vertex.secureVirtualHosts]
    exact secureVirtualHostsOf_pruneAll cs
theorem secureVirtualHostsOf_pruneAll : ∀ cs : List dag.Vertex,
    dag.Vertex.secureVirtualHostsOf (dag.Vertex.pruneAll cs) =
      dag.Vertex.secureVirtualHostsOf cs
  | [] => rfl
  | c :: cs => by
    simp only [dag.Vertex.pruneAll, dag.Vertex.secureVirtualHostsOf,
      secureVirtualHosts_prune c, secureVirtualHostsOf_pruneAll cs]
end

mutual
theorem virtualHosts_prune : ∀ x : dag.Vertex, x.prune.virtualHosts = x.virtualHosts
  | .virtualHost _ _ => rfl
  | .secureVirtualHost _ _ => rfl
  | .other cs => by
    simp only [dag.Vertex.prune, dag.Vertex.virtualHosts]
    exact virtualHostsOf_pruneAll cs
theorem virtualHostsOf_pruneAll : ∀ cs : List dag.Vertex,
    dag.Vertex.virtualHostsOf (dag.Vertex.pruneAll cs) = dag.Vertex.virtualHostsOf cs
  | [] => rfl
  | c :: cs => by
    simp only [dag.Vertex.pruneAll, dag.Vertex.virtualHostsOf, virtualHosts_prune c,
      virtualHostsOf_pruneAll cs]
end

/-- C21: from a visitor that holds the `ingress_https` listener `l`, `visit`
appends to its chains one filter chain per TLS-terminated virtual host that is
reachable from the root through nodes of other kinds only, in depth-first
order; the SNI server names of the appended chains are the names of those
hosts; a node of another kind is transparent; what lies beneath a virtual host
has no effect on the visitor; and the plaintext flag is raised exactly by the
plaintext virtual hosts reachable in the same way. -/
theorem visit_chains_correspond (v : listenerVisitor) (root : dag.Vertex) (l : Listener)
    (h : v.listeners.get? ENVOY_HTTPS_LISTENER = some l) :
    (visit v root).listeners.get? ENVOY_HTTPS_LISTENER =
        some { l with FilterChains := l.FilterChains ++
          root.secureVirtualHosts.map (visit.fc v.ListenerVisitorConfig) } ∧
      (root.secureVirtualHosts.map (visit.fc v.ListenerVisitorConfig)).map
          FilterChain.serverName0 =
        root.secureVirtualHosts.map (fun vh => vh.VirtualHost.Name) ∧
      (∀ vh : dag.SecureVirtualHost,
        vh ∈ root.secureVirtualHosts ↔ ∃ cs, root.Reaches (.secureVirtualHost vh cs)) ∧
      (∀ x : dag.Vertex, visit v (.other [x]) = visit v x) ∧
      visit v root = visit v root.prune ∧
      ((visit v root).http = true ↔
        v.http = true ∨ ∃ vh cs, root.Reaches (.virtualHost vh cs)) := by
  refine ⟨visit_https_present v root l h, ?_, fun vh => mem_secureVirtualHosts_iff vh root,
    fun x => ?_, ?_, ?_⟩
  · rw [List.map_map]
    exact List.map_congr_left (fun vh _ => (visit_fc_serverName _ vh).2)
  · simp [visit, Visit]
  · rw [visit_eq v root, visit_eq v root.prune, secureVirtualHosts_prune, virtualHosts_prune]
  · rw [visit_eq]
    simp only [Bool.or_eq_true, Bool.not_eq_true', List.isEmpty_eq_false]
    constructor
    · rintro (hv | hne)
      · exact Or.inl hv
      · obtain ⟨vh, hvh⟩ := List.exists_mem_of_ne_nil _ (by simpa using hne)
        obtain ⟨cs, hcs⟩ := (mem_virtualHosts_iff vh root).1 hvh
        exact Or.inr ⟨vh, cs, hcs⟩
    · rintro (hv | ⟨vh, cs, hcs⟩)
      · exact Or.inl hv
      · have := (mem_virtualHosts_iff vh root).2 ⟨cs, hcs⟩
        right
        cases hl : root.virtualHosts with
        | nil => rw [hl] at this; cases this
        | cons a as => simp

theorem visit_chains_correspond_witness :
    (visitListeners.lv sample.lvc).listeners.get? ENVOY_HTTPS_LISTENER =
        some (envoy.Listener ENVOY_HTTPS_LISTENER "0.0.0.0" 8443 [.TLSInspector] []) ∧
    (visit (visitListeners.lv sample.lvc) sample.graph₄).listeners.get? ENVOY_HTTPS_LISTENER =
      some { envoy.Listener ENVOY_HTTPS_LISTENER "0.0.0.0" 8443 [.TLSInspector] [] with
        FilterChains :=
          (envoy.Listener ENVOY_HTTPS_LISTENER "0.0.0.0" 8443 [.TLSInspector] []).FilterChains
            ++ sample.graph₄.secureVirtualHosts.map
              (visit.fc (visitListeners.lv sample.lvc).ListenerVisitorConfig) } ∧
    sample.graph₄.secureVirtualHosts.map (fun vh => vh.VirtualHost.Name) =
      ["b.example.com", "a.example.com", "c.example.com"] :=
  ⟨by decide,
    (visit_chains_correspond (visitListeners.lv sample.lvc) sample.graph₄
      (envoy.Listener ENVOY_HTTPS_LISTENER "0.0.0.0" 8443 [.TLSInspector] []) (by decide)).1,
    by decide⟩

/-! ## The listeners and the policy -/

/-- C22: under one policy, two graphs in each of which the traversal meets a
plaintext virtual host get the same `ingress_http` entry, the listener built
from the policy alone, written out here from the fields of the policy: the
HTTP address and port (or their defaults), the proxy-protocol listener filter
when the toggle is on, and one pipeline with the HTTP connection manager that
carries the access log of the plaintext path `HTTPAccessLog` (never that of the
TLS path), in the configured rendering, and the request timeout clamped at 0. -/
theorem visitListeners_http_from_policy (g₁ g₂ : dag.Vertex) (lvc : ListenerVisitorConfig)
    (h₁ : g₁.virtualHosts ≠ []) (h₂ : g₂.virtualHosts ≠ []) :
    (visitListeners g₁ lvc).get? ENVOY_HTTP_LISTENER =
        (visitListeners g₂ lvc).get? ENVOY_HTTP_LISTENER ∧
      (visitListeners g₁ lvc).get? ENVOY_HTTP_LISTENER =
        some
          { Name := "ingress_http"
            Address :=
              { Address := if lvc.HTTPAddress ≠ "" then lvc.HTTPAddress else "0.0.0.0"
                Port := if lvc.HTTPPort ≠ 0 then lvc.HTTPPort else 8080 }
            ListenerFilters := if lvc.UseProxyProto then [.ProxyProtocol] else []
            FilterChains :=
              [{ Filters :=
                   [.HTTPConnectionManager "ingress_http"
                     (if (if lvc.AccessLogType ≠ "" then lvc.AccessLogType else "envoy") = "json"
                      then
                        .FileAccessLogJSON
                          (if lvc.HTTPAccessLog ≠ "" then lvc.HTTPAccessLog else "/dev/stdout")
                          (match lvc.AccessLogFields with
                            | some fs => .fields fs
                            | none => .DefaultFields)
                      else
                        .FileAccessLogEnvoy
                          (if lvc.HTTPAccessLog ≠ "" then lvc.HTTPAccessLog
                           else "/dev/stdout"))
                     (if lvc.RequestTimeout < 0 then 0 else lvc.RequestTimeout)]
                 FilterChainMatch := none
                 TlsContext := none }] } := by
  rw [visitListeners_get?_http, visitListeners_get?_http, if_neg h₁, if_neg h₂]
  exact ⟨rfl, rfl⟩

theorem visitListeners_http_from_policy_witness :
    (sample.graph₁.virtualHosts ≠ [] ∧ sample.graph₅.virtualHosts ≠ []) ∧
    ((visitListeners sample.graph₁ sample.lvc₁).get? ENVOY_HTTP_LISTENER =
        (visitListeners sample.graph₅ sample.lvc₁).get? ENVOY_HTTP_LISTENER ∧
      (visitListeners sample.graph₁ sample.lvc₁).get? ENVOY_HTTP_LISTENER =
        some
          { Name := "ingress_http"
            Address := { Address := "127.0.0.1", Port := 9080 }
            ListenerFilters := [.ProxyProtocol]
            FilterChains :=
              [{ Filters :=
                   [.HTTPConnectionManager "ingress_http"
                     (.FileAccessLogJSON "/tmp/http.log" (.fields ["@timestamp"])) 90]
                 FilterChainMatch := none
                 TlsContext := none }] }) ∧
    ((visitListeners sample.graph₁ sample.lvc).get? ENVOY_HTTP_LISTENER =
        (visitListeners sample.graph₅ sample.lvc).get? ENVOY_HTTP_LISTENER ∧
      (visitListeners sample.graph₁ sample.lvc).get? ENVOY_HTTP_LISTENER =
        some
          { Name := "ingress_http"
            Address := { Address := "0.0.0.0", Port := 8080 }
            ListenerFilters := []
            FilterChains :=
              [{ Filters :=
                   [.HTTPConnectionManager "ingress_http"
                     (.FileAccessLogEnvoy "/dev/stdout") 0]
                 FilterChainMatch := none
                 TlsContext := none }] }) :=
  ⟨⟨by decide, by decide⟩,
    visitListeners_http_from_policy sample.graph₁ sample.graph₅ sample.lvc₁
      (by decide) (by decide),
    visitListeners_http_from_policy sample.graph₁ sample.graph₅ sample.lvc
      (by decide) (by decide)⟩

/-- C23: the listener filters of the `ingress_https` listener are
`secureProxyProtocol UseProxyProto`, the proxy-protocol filter followed by the
TLS inspector when the toggle is on and the TLS inspector alone when it is
off, so the TLS inspector is always there and always last; the `ingress_http`
listener has the proxy-protocol filter alone when the toggle is on and no
listener filter when it is off. -/
theorem listener_filters_by_toggle (root : dag.Vertex) (lvc : ListenerVisitorConfig) :
    (∀ l : Listener, (visitListeners root lvc).get? ENVOY_HTTPS_LISTENER = some l →
        l.ListenerFilters = secureProxyProtocol lvc.UseProxyProto ∧
        l.ListenerFilters.getLast? = some .TLSInspector) ∧
      (∀ l : Listener, (visitListeners root lvc).get? ENVOY_HTTP_LISTENER = some l →
        l.ListenerFilters = proxyProtocol lvc.UseProxyProto) ∧
      secureProxyProtocol true = [.ProxyProtocol, .TLSInspector] ∧
      secureProxyProtocol false = [.TLSInspector] ∧
      proxyProtocol true = [.ProxyProtocol] ∧
      proxyProtocol false = [] := by
  refine ⟨fun l hl => ?_, fun l hl => ?_, rfl, rfl, rfl, rfl⟩
  · rw [visitListeners_get?_https] at hl
    by_cases hs : root.secureVirtualHosts = []
    · simp [hs] at hl
    · rw [if_neg hs] at hl
      have := (Option.some.inj hl).symm
      subst this
      refine ⟨rfl, ?_⟩
      cases lvc.UseProxyProto <;> rfl
  · rw [visitListeners_get?_http] at hl
    by_cases hs : root.virtualHosts = []
    · simp [hs] at hl
    · rw [if_neg hs] at hl
      have := (Option.some.inj hl).symm
      subst this
      rfl

theorem listener_filters_by_toggle_witness :
    ((visitListeners sample.graph₁ sample.lvc).get? ENVOY_HTTPS_LISTENER =
        some sample.https₁ ∧
      (sample.https₁.ListenerFilters = secureProxyProtocol sample.lvc.UseProxyProto ∧
        sample.https₁.ListenerFilters.getLast? = some .TLSInspector)) ∧
    ((visitListeners sample.graph₅ sample.lvc₁).get? ENVOY_HTTP_LISTENER =
        some (envoy.Listener "ingress_http" "127.0.0.1" 9080 [.ProxyProtocol]
          [.HTTPConnectionManager "ingress_http"
            (.FileAccessLogJSON "/tmp/http.log" (.fields ["@timestamp"])) 90]) ∧
      (envoy.Listener "ingress_http" "127.0.0.1" 9080 [.ProxyProtocol]
          [.HTTPConnectionManager "ingress_http"
            (.FileAccessLogJSON "/tmp/http.log" (.fields ["@timestamp"])) 90]).ListenerFilters =
        proxyProtocol sample.lvc₁.UseProxyProto) :=
  ⟨⟨by decide,
      (listener_filters_by_toggle sample.graph₁ sample.lvc).1 sample.https₁ (by decide)⟩,
    ⟨by decide,
      (listener_filters_by_toggle sample.graph₅ sample.lvc₁).2.1 _ (by decide)⟩⟩

/-- C25: whatever the configured MinimumProtocolVersion and whatever the
MinProtoVersion a TLS-terminated virtual host requests, the chain that `visit`
appends for the host has a minimum TLS version that is at least TLSv1_1 and at
least the host's requested version; so has every chain of an `ingress_https`
listener that `visitListeners` returns a minimum of at least TLSv1_1. -/
theorem visit_chain_min_tls_floor (v : listenerVisitor) (vh : dag.SecureVirtualHost)
    (children : List dag.Vertex) (l : Listener)
    (h : v.listeners.get? ENVOY_HTTPS_LISTENER = some l)
    (root : dag.Vertex) (l' : Listener)
    (h' : (visitListeners root v.ListenerVisitorConfig).get? ENVOY_HTTPS_LISTENER = some l') :
    (∃ (fc : FilterChain) (tls : DownstreamTlsContext),
      (visit v (.secureVirtualHost vh children)).listeners.get? ENVOY_HTTPS_LISTENER =
        some { l with FilterChains := l.FilterChains ++ [fc] } ∧
      fc.TlsContext = some tls ∧
      TlsParameters_TLSv1_1 ≤ tls.TlsMinimumProtocolVersion ∧
      vh.MinProtoVersion ≤ tls.TlsMinimumProtocolVersion) ∧
    (∀ fc ∈ l'.FilterChains, ∃ tls : DownstreamTlsContext, fc.TlsContext = some tls ∧
      TlsParameters_TLSv1_1 ≤ tls.TlsMinimumProtocolVersion) ∧
    (∀ x ∈ root.secureVirtualHosts, ∃ fc ∈ l'.FilterChains, ∃ tls : DownstreamTlsContext,
      fc.serverName0 = x.VirtualHost.Name ∧ fc.TlsContext = some tls ∧
      x.MinProtoVersion ≤ tls.TlsMinimumProtocolVersion) := by
  have hfloor : ∀ (lvc : ListenerVisitorConfig) (x : dag.SecureVirtualHost),
      ∃ tls : DownstreamTlsContext, (visit.fc lvc x).TlsContext = some tls ∧
        TlsParameters_TLSv1_1 ≤ tls.TlsMinimumProtocolVersion ∧
        x.MinProtoVersion ≤ tls.TlsMinimumProtocolVersion := by
    intro lvc x
    have hmin : TlsParameters_TLSv1_1 ≤ lvc.minProtoVersion := by
      unfold ListenerVisitorConfig.minProtoVersion
      split
      · next hgt => exact le_of_lt hgt
      · exact le_refl _
    refine ⟨_, rfl, ?_, ?_⟩
    · simp only [envoy.DownstreamTLSContext, visit.max]
      split
      · exact hmin
      · next hle => exact le_trans hmin (not_lt.1 hle)
    · simp only [envoy.DownstreamTLSContext, visit.max]
      split
      · next hgt => exact le_of_lt hgt
      · exact le_refl _
  refine ⟨?_, ?_, ?_⟩
  · obtain ⟨tls, htls, h1, h2⟩ := hfloor v.ListenerVisitorConfig vh
    refine ⟨visit.fc v.ListenerVisitorConfig vh, tls, ?_, htls, h1, h2⟩
    simp [visit, GoMap.get?_modify_self, h]
  all_goals
    rw [visitListeners_get?_https] at h'
    by_cases hs : root.secureVirtualHosts = []
    · simp [hs] at h'
    rw [if_neg hs] at h'
    have hl := (Option.some.inj h').symm
    subst hl
  · intro fc hfc
    simp only [sort.mem_Stable, List.mem_map] at hfc
    obtain ⟨x, -, rfl⟩ := hfc
    obtain ⟨tls, htls, h1, -⟩ := hfloor v.ListenerVisitorConfig x
    exact ⟨tls, htls, h1⟩
  · intro x hx
    obtain ⟨tls, htls, -, h2⟩ := hfloor v.ListenerVisitorConfig x
    refine ⟨visit.fc v.ListenerVisitorConfig x, ?_, tls,
      (visit_fc_serverName _ x).2, htls, h2⟩
    simp only [sort.mem_Stable, List.mem_map]
    exact ⟨x, hx, rfl⟩

theorem visit_chain_min_tls_floor_witness :
    ((visitListeners.lv sample.lvc).listeners.get? ENVOY_HTTPS_LISTENER =
        some (envoy.Listener ENVOY_HTTPS_LISTENER "0.0.0.0" 8443 [.TLSInspector] []) ∧
      (visitListeners sample.graph₁
        (visitListeners.lv sample.lvc).ListenerVisitorConfig).get? ENVOY_HTTPS_LISTENER =
        some sample.https₁) ∧
    (∀ fc ∈ sample.https₁.FilterChains, ∃ tls : DownstreamTlsContext,
      fc.TlsContext = some tls ∧ TlsParameters_TLSv1_1 ≤ tls.TlsMinimumProtocolVersion) :=
  ⟨⟨by decide, by decide⟩,
    (visit_chain_min_tls_floor (visitListeners.lv sample.lvc)
      (sample.host "a.example.com" 0 none) []
      (envoy.Listener ENVOY_HTTPS_LISTENER "0.0.0.0" 8443 [.TLSInspector] []) (by decide)
      sample.graph₁ sample.https₁ (by decide)).2.1⟩

/-! ## Update and the change notifier -/

theorem UpdateTraced_events (c : ListenerCache) (v : GoMap Listener) :
    (c.UpdateTraced v).2 = [.Lock, .Notify, .Unlock] := rfl

theorem events_split (pre post : List Event)
    (h : [Event.Lock, Event.Notify, Event.Unlock] = pre ++ Event.Notify :: post) :
    pre = [.Lock] ∧ post = [.Unlock] := by
  rcases pre with _ | ⟨a, _ | ⟨b, _ | ⟨d, pre⟩⟩⟩
  · simp at h
  · simp only [List.singleton_append, List.cons.injEq, true_and] at h
    exact ⟨by rw [h.1], h.2.symm⟩
  · simp at h
  · simp at h

/-- C24, as stated, fails: in the events of `Update` on `sample.cache₁` the
signal of the change notifier comes while the mutex is held, before any
release. -/
theorem Update_notify_after_unlock_counterexample :
    ¬ (∀ pre post : List Event,
      (sample.cache₁.UpdateTraced sample.cache₆.values).2 = pre ++ Event.Notify :: post →
        Event.held pre = false ∧ Event.Unlock ∈ pre) := by
  intro h
  have := (h [.Lock] [.Unlock] rfl).1
  simp [Event.held] at this

/-- C24, amended: every call `Update v` sets the dynamic map to `v` and signals
the change notifier exactly once; the signal is issued while the mutex is still
held, and the mutex is released right after it, by the deferred unlock. -/
theorem Update_notifies_once_under_lock (c : ListenerCache) (v : GoMap Listener) :
    (c.UpdateTraced v).1 = c.Update v ∧
      (c.Update v).values = v ∧
      (c.Update v).Cond.last = c.Cond.last + 1 ∧
      (c.UpdateTraced v).2.count .Notify = 1 ∧
      (∀ pre post : List Event, (c.UpdateTraced v).2 = pre ++ Event.Notify :: post →
        Event.held pre = true ∧ Event.Unlock ∉ pre ∧ post = [.Unlock]) ∧
      Event.held (c.UpdateTraced v).2 = false := by
  refine ⟨rfl, rfl, rfl, by rw [UpdateTraced_events]; decide, ?_, by
    rw [UpdateTraced_events]; decide⟩
  intro pre post h
  rw [UpdateTraced_events] at h
  obtain ⟨hpre, hpost⟩ := events_split pre post h
  subst hpre hpost
  exact ⟨by decide, by decide, rfl⟩

theorem Update_notifies_once_under_lock_witness :
    (sample.cache₁.UpdateTraced sample.cache₆.values).2 =
        [Event.Lock] ++ Event.Notify :: [Event.Unlock] ∧
      (Event.held [Event.Lock] = true ∧ Event.Unlock ∉ [Event.Lock] ∧
        [Event.Unlock] = [Event.Unlock]) :=
  ⟨by decide,
    (Update_notifies_once_under_lock sample.cache₁ sample.cache₆.values).2.2.2.2.1
      [.Lock] [.Unlock] (by decide)⟩

/-! ## The sizes of Query and Contents -/

namespace GoMap

variable {β : Type}

theorem get?_isSome_iff (m : GoMap β) (k : String) :
    (m.get? k).isSome = true ↔ k ∈ m.map Prod.fst := by
  induction m with
  | nil => simp [get?_nil]
  | cons kv m ih =>
    obtain ⟨k', v'⟩ := kv
    rw [get?_cons]
    by_cases h : k = k'
    · simp [h]
    · simp [h, ih]

end GoMap

theorem find?_isSome_iff (c : ListenerCache) (n : String) :
    (c.find? n).isSome = true ↔
      n ∈ c.values.map Prod.fst ∨ n ∈ c.staticValues.map Prod.fst := by
  rw [← GoMap.get?_isSome_iff, ← GoMap.get?_isSome_iff]
  unfold ListenerCache.find?
  cases c.values.get? n <;> simp

theorem length_filterMap_find? (c : ListenerCache) (names : List String) :
    (names.filterMap c.find?).length =
      names.countP (fun n =>
        decide (n ∈ c.values.map Prod.fst ∨ n ∈ c.staticValues.map Prod.fst)) := by
  induction names with
  | nil => rfl
  | cons n names ih =>
    rw [List.filterMap_cons, List.countP_cons]
    cases hf : c.find? n with
    | none =>
      have : ¬ (n ∈ c.values.map Prod.fst ∨ n ∈ c.staticValues.map Prod.fst) := by
        rw [← find?_isSome_iff, hf]; simp
      simp only [ih, this, decide_False, Bool.false_eq_true, if_false, add_zero]
    | some x =>
      have : n ∈ c.values.map Prod.fst ∨ n ∈ c.staticValues.map Prod.fst := by
        rw [← find?_isSome_iff, hf]; rfl
      simp only [List.length_cons, ih, this, decide_True, if_true]

theorem count_filterMap_find? (c : ListenerCache) (n : String) (x : Listener)
    (h : c.find? n = some x) (names : List String) :
    names.count n ≤ (names.filterMap c.find?).count x := by
  induction names with
  | nil => simp
  | cons m names ih =>
    rw [List.filterMap_cons, List.count_cons]
    by_cases hm : m = n
    · subst hm
      rw [h, List.count_cons]
      simp only [beq_self_eq_true, if_true]
      omega
    · have hne : (m == n) = false := by simpa using hm
      rw [hne]
      simp only [Bool.false_eq_true, if_false, add_zero]
      cases c.find? m with
      | none => exact ih
      | some y =>
        rw [List.count_cons]
        omega

/-- C26: the length of the result of `Query` is the number of positions of the
name list whose name is a key of the dynamic or of the static map; a present
name requested k times gives its resource k times (at least as many times as
the name is requested, in any list), so `Query` does not de-duplicate. -/
theorem Query_length (c : ListenerCache) (names : List String) :
    (c.Query names).length =
        names.countP (fun n =>
          decide (n ∈ c.values.map Prod.fst ∨ n ∈ c.staticValues.map Prod.fst)) ∧
      (∀ (n : String) (x : Listener) (k : Nat), c.find? n = some x →
        c.Query (List.replicate k n) = List.replicate k x) ∧
      (∀ (n : String) (x : Listener), c.find? n = some x →
        names.count n ≤ (c.Query names).count x) := by
  refine ⟨?_, ?_, ?_⟩
  · rw [Query_eq, sort.length_Stable, length_filterMap_find?]
  · intro n x k h
    rw [Query_eq]
    have hf : (List.replicate k n).filterMap c.find? = List.replicate k x := by
      induction k with
      | zero => rfl
      | succ k ih => rw [List.replicate_succ, List.filterMap_cons, h, ih, List.replicate_succ]
    rw [hf]
    exact List.perm_replicate.1 (sort.perm_Stable _ _)
  · intro n x h
    rw [Query_eq, (sort.perm_Stable _ _).count_eq]
    exact count_filterMap_find? c n x h names

theorem Query_length_witness :
    sample.cache₁.find? "y" = some (sample.listener "y" 8443) ∧
      sample.cache₁.Query (List.replicate 3 "y") =
        List.replicate 3 (sample.listener "y" 8443) ∧
      ["y", "nope", "y"].count "y" ≤
        (sample.cache₁.Query ["y", "nope", "y"]).count (sample.listener "y" 8443) :=
  ⟨by decide,
    (Query_length sample.cache₁ ["y", "nope", "y"]).2.1 "y" (sample.listener "y" 8443) 3
      (by decide),
    (Query_length sample.cache₁ ["y", "nope", "y"]).2.2 "y" (sample.listener "y" 8443)
      (by decide)⟩

namespace sort

variable {α : Type}

/-- In a list in non-decreasing key order the elements of a key stand
together, after the smaller keys and before the greater ones. -/
theorem pairwise_split (key : α → String) (k : String) :
    ∀ l : List α, l.Pairwise (fun x y => key x ≤ key y) →
      l = l.filter (fun x => decide (key x < k)) ++ l.filter (fun x => key x = k) ++
        l.filter (fun x => decide (k < key x))
  | [], _ => rfl
  | a :: l, h => by
    rw [List.pairwise_cons] at h
    have ih := pairwise_split key k l h.2
    rcases lt_trichotomy (key a) k with hlt | heq | hgt
    · have h1 : ¬ key a = k := ne_of_lt hlt
      have h2 : ¬ k < key a := not_lt.2 (le_of_lt hlt)
      simp only [List.filter_cons, hlt, h1, h2, decide_True, decide_False, if_true,
        Bool.false_eq_true, if_false, List.cons_append]
      exact congrArg (a :: ·) ih
    · subst heq
      have h1 : ¬ key a < key a := lt_irrefl _
      have hnil : l.filter (fun x => decide (key x < key a)) = [] := by
        rw [List.filter_eq_nil_iff]
        intro x hx
        simpa using h.1 x hx
      rw [hnil] at ih
      simp only [List.filter_cons, h1, decide_True, decide_False, if_true,
        Bool.false_eq_true, if_false, List.nil_append, List.cons_append, hnil]
      rw [List.nil_append] at ih
      exact congrArg (a :: ·) ih
    · have h1 : ¬ key a < k := not_lt.2 (le_of_lt hgt)
      have h2 : ¬ key a = k := ne_of_gt hgt
      have hnil : l.filter (fun x => decide (key x < k)) = [] := by
        rw [List.filter_eq_nil_iff]
        intro x hx
        have := lt_of_lt_of_le hgt (h.1 x hx)
        simpa using le_of_lt this
      have hnil' : l.filter (fun x => decide (key x = k)) = [] := by
        rw [List.filter_eq_nil_iff]
        intro x hx
        have := lt_of_lt_of_le hgt (h.1 x hx)
        simpa using ne_of_gt this
      rw [hnil, hnil'] at ih
      simp only [List.filter_cons, hgt, h1, h2, decide_True, decide_False, if_true,
        Bool.false_eq_true, if_false, List.nil_append, hnil, hnil']
      rw [List.nil_append, List.nil_append] at ih
      exact congrArg (a :: ·) ih

end sort

/-- C27, as stated, fails: in `sample.cache₇` the dynamic listener under k1
and the static listener have the same Name x, and `Contents` returns both, but
the second dynamic listener named x stands between them. -/
theorem Contents_adjacent_counterexample :
    (("k1", sample.listener "x" 8080) ∈ sample.cache₇.values ∧
      ("x", sample.listener "x" 9000) ∈ sample.cache₇.staticValues ∧
      (sample.listener "x" 8080).Name = (sample.listener "x" 9000).Name) ∧
    ¬ ∃ pre post : List Listener,
      sample.cache₇.Contents =
        pre ++ sample.listener "x" 8080 :: sample.listener "x" 9000 :: post := by
  refine ⟨⟨by decide, by decide, rfl⟩, ?_⟩
  have hc : sample.cache₇.Contents =
      [sample.listener "x" 8080, sample.listener "x" 8443, sample.listener "x" 9000] := by
    decide
  rw [hc]
  rintro ⟨pre, post, h⟩
  have h1 : sample.listener "x" 8443 ≠ sample.listener "x" 9000 := by decide
  have h2 : sample.listener "x" 8443 ≠ sample.listener "x" 8080 := by decide
  have h3 : sample.listener "x" 9000 ≠ sample.listener "x" 8080 := by decide
  rcases pre with _ | ⟨a, _ | ⟨b, _ | ⟨d, pre⟩⟩⟩
  · simp only [List.nil_append, List.cons.injEq, true_and] at h
    exact h1 h.1
  · simp only [List.singleton_append, List.cons.injEq] at h
    exact h2 h.2.1
  · simp only [List.cons_append, List.nil_append, List.cons.injEq] at h
    exact h3 h.2.2.1
  · simp at h

/-- C27, amended: the length of `Contents` is the size of the dynamic map plus
the size of the static map; the listeners of one Name are all returned, the
dynamic ones before the static ones; and when exactly one dynamic and exactly
one static listener have a Name, `Contents` returns both, the dynamic one
immediately before the static one. -/
theorem Contents_length_and_order (c : ListenerCache) :
    c.Contents.length = c.values.length + c.staticValues.length ∧
      (∀ n : String,
        c.Contents.filter (fun x => x.Name = n) =
          (c.values.map Prod.snd).filter (fun x => x.Name = n) ++
            (c.staticValues.map Prod.snd).filter (fun x => x.Name = n)) ∧
      (∀ (n : String) (d s : Listener),
        (c.values.map Prod.snd).filter (fun x => x.Name = n) = [d] →
        (c.staticValues.map Prod.snd).filter (fun x => x.Name = n) = [s] →
        ∃ pre post : List Listener, c.Contents = pre ++ d :: s :: post) := by
  have hfilter : ∀ n : String,
      c.Contents.filter (fun x => x.Name = n) =
        (c.values.map Prod.snd).filter (fun x => x.Name = n) ++
          (c.staticValues.map Prod.snd).filter (fun x => x.Name = n) := by
    intro n
    rw [Contents_eq, sort.filter_Stable Listener.Name n, List.filter_append]
  refine ⟨?_, hfilter, ?_⟩
  · rw [Contents_eq, sort.length_Stable]
    simp
  · intro n d s hd hs
    have hsplit := sort.pairwise_split Listener.Name n c.Contents (by
      rw [Contents_eq]
      exact sort.pairwise_Stable Listener.Name _)
    rw [hfilter n, hd, hs] at hsplit
    exact ⟨_, _, by rw [List.append_assoc] at hsplit; exact hsplit⟩

theorem Contents_length_and_order_witness :
    ((sample.cache₃.values.map Prod.snd).filter (fun x => x.Name = "x") =
        [sample.listener "x" 8080] ∧
      (sample.cache₃.staticValues.map Prod.snd).filter (fun x => x.Name = "x") =
        [sample.listener "x" 9000]) ∧
    (∃ pre post : List Listener,
      sample.cache₃.Contents =
        pre ++ sample.listener "x" 8080 :: sample.listener "x" 9000 :: post) ∧
    sample.cache₃.Contents =
      [sample.listener "stats" 8002, sample.listener "x" 8080, sample.listener "x" 9000] :=
  ⟨⟨by decide, by decide⟩,
    (Contents_length_and_order sample.cache₃).2.2 "x" (sample.listener "x" 8080)
      (sample.listener "x" 9000) (by decide) (by decide),
    by decide⟩

end Contour
